import Mathlib

set_option maxHeartbeats 1000000

/-!
Verification of the data-center topology generators in `src/DCTopo.py`
(`BCubeTopo`, `FatTreeTopo`), shallowly embedded in Lean 4.

The mininet `Topo` base class is outside the repository; its node/link
bookkeeping is modelled from the specification of the Topology Graph
(insertion-ordered node enumeration via `nodes()`, an `UnknownNodeError`
guard on `addLink`).  The generators themselves are translated from the
Python source.  Python 2 integer arithmetic on the values reached after
validation is nonnegative, where Python `//`, `/` (on ints) and `%`
agree with `Nat` division and remainder; validation itself is modelled
on `Int` with Python floor-division semantics (`Int.fdiv`, `Int.fmod`),
and Python's `ZeroDivisionError` on `% 0` is made explicit.
-/

/-! Closed forms for the BCube graph. -/

/-! Closed forms for the FatTree graph. -/

inductive NodeKind where
  | host
  | switch
deriving DecidableEq

/-- Node labels.  `Name.fmt1 t a` models the Python format string
`(t ++ "\x7b\x7d").format(a)` and `Name.fmt2 t a b` models
`(t ++ "\x7b\x7d_\x7b\x7d").format(a, b)`; distinct constructor arguments
render to distinct strings, since the tags used here are single letters
and the rendered arguments are digit sequences. -/
inductive Name where
  | fmt1 (tag : String) (a : Nat)
  | fmt2 (tag : String) (a b : Nat)
deriving DecidableEq

def Name.tag : Name → String
  | .fmt1 t _ => t
  | .fmt2 t _ _ => t

/-- A Python value passed as a generator parameter: an `int`, or some
non-integer value (string, float, ...) remembered only by a tag. -/
inductive PyVal where
  | int (z : Int)
  | notInt (tag : String)
deriving DecidableEq

/-- The Python exceptions that the generators (or the graph layer / list
indexing underneath them) can raise. -/
inductive PyErr where
  | typeError (msg : String)
  | valueError (msg : String)
  | zeroDivisionError
  | unknownNodeError
  | indexError
deriving DecidableEq

def PyErr.isTypeError : PyErr → Bool
  | .typeError _ => true
  | _ => false

def PyErr.isValueError : PyErr → Bool
  | .valueError _ => true
  | _ => false

/-- The Topology Graph: insertion-ordered nodes and links. -/
structure Graph where
  nodes : List (Name × NodeKind)
  links : List (Name × Name)
deriving DecidableEq

def Graph.empty : Graph := ⟨[], []⟩

/-- Modelled from the spec: `nodes()` returns all node identifiers in the
order they were added. -/
def Graph.nodeNames (g : Graph) : List Name := g.nodes.map Prod.fst

/-- Modelled from the spec: `addHost` appends a new Host node and returns
its identifier (the caller passes the label explicitly, as in the source). -/
def Graph.addHost (g : Graph) (x : Name) : Graph :=
  ⟨g.nodes ++ [(x, NodeKind.host)], g.links⟩

/-- Modelled from the spec: `addSwitch` appends a new Switch node. -/
def Graph.addSwitch (g : Graph) (x : Name) : Graph :=
  ⟨g.nodes ++ [(x, NodeKind.switch)], g.links⟩

/-- Modelled from the spec: `addLink` creates an undirected link between two
existing nodes and fails with `UnknownNodeError` if either endpoint was not
previously added. -/
def Graph.addLink (g : Graph) (x y : Name) : Except PyErr Graph :=
  if x ∈ g.nodeNames ∧ y ∈ g.nodeNames then
    .ok ⟨g.nodes, g.links ++ [(x, y)]⟩
  else
    .error PyErr.unknownNodeError

/-- Number of links incident to `x` (no generator creates self-loops). -/
def Graph.degree (g : Graph) (x : Name) : Nat :=
  g.links.countP (fun e => e.1 = x ∨ e.2 = x)

/-- Number of links joining `x` to a node whose label tag is `t`. -/
def Graph.tagDegree (g : Graph) (x : Name) (t : String) : Nat :=
  g.links.countP (fun e => (e.1 = x ∧ e.2.tag = t) ∨ (e.2 = x ∧ e.1.tag = t))

/-- Number of nodes of a given kind. -/
def Graph.kindCount (g : Graph) (kd : NodeKind) : Nat :=
  g.nodes.countP (fun x => x.2 = kd)

/-- Number of switches whose label tag is `t`. -/
def Graph.switchTagCount (g : Graph) (t : String) : Nat :=
  g.nodes.countP (fun x => x.2 = NodeKind.switch ∧ x.1.tag = t)

def forListP : List α → (α → σ → σ) → σ → σ
  | [], _, s => s
  | x :: xs, f, s => forListP xs f (f x s)

def forRangeP (cnt : Nat) (f : Nat → σ → σ) (s : σ) : σ :=
  forListP (List.range cnt) f s

def forListE : List α → (α → σ → Except ε σ) → σ → Except ε σ
  | [], _, s => .ok s
  | x :: xs, f, s => Except.bind (f x s) (forListE xs f)

def forRangeE (cnt : Nat) (f : Nat → σ → Except ε σ) (s : σ) : Except ε σ :=
  forListE (List.range cnt) f s

def cm : List α → (α → List β) → List β
  | [], _ => []
  | x :: xs, f => f x ++ cm xs f

/-- `xrange(a, b)`. -/
def xrange2 (a b : Nat) : List Nat :=
  (List.range (b - a)).map (fun t => a + t)

/-- `xrange(start, stop, step)` for a positive `step`. -/
def xrange3 (start stop step : Nat) : List Nat :=
  (List.range ((stop - start + step - 1) / step)).map (fun t => start + t * step)

def bcubeHostName (n i : Nat) : Name := Name.fmt2 "h" (i / n) (i % n)

def bcubeSwitchName (level sid : Nat) : Name := Name.fmt2 "s" level sid

/-- One iteration of `for v in hosts: self.addLink(sw, nodeslist[v])`. -/
def bcubeLinkStep (nodeslist : List Name) (sw : Name) (v : Nat) (g : Graph) :
    Except PyErr Graph :=
  match nodeslist[v]? with
  | some nd => g.addLink sw nd
  | none => .error PyErr.indexError

/-- One iteration of the switch loop `for i in xrange(n ** k)` at a given
level; the state carries the graph and the `sid` counter. -/
def bcubeSwitchStep (n level : Nat) (i : Nat) (st : Graph × Nat) :
    Except PyErr (Graph × Nat) :=
  let arg1 := n ^ level
  let arg2 := n ^ (level + 1)
  let sw := bcubeSwitchName level st.2
  let g := st.1.addSwitch sw
  let m := i % arg1 + i / arg1 * arg2
  let hosts := xrange3 m (m + arg2) arg1
  let nodeslist := g.nodeNames
  Except.map (fun g2 => (g2, st.2 + 1))
    (forListE hosts (bcubeLinkStep nodeslist sw) g)

/-- One iteration of the level loop `for level in xrange(k + 1)`. -/
def bcubeLevelStep (n k : Nat) (level : Nat) (g : Graph) : Except PyErr Graph :=
  Except.map Prod.fst (forRangeE (n ^ k) (bcubeSwitchStep n level) (g, 0))

/-- The body of `BCubeTopo.__init__` after validation, on the (nonnegative)
validated parameters. -/
def bcubeBuild (k n : Nat) : Except PyErr Graph :=
  let n_hosts := n ^ (k + 1)
  let g0 := forRangeP n_hosts (fun i g => g.addHost (bcubeHostName n i)) Graph.empty
  forRangeE (k + 1) (bcubeLevelStep n k) g0

/-- Parameter validation of `BCubeTopo.__init__` (lines 37-42). -/
def bcubeValidate (kv nv : PyVal) : Except PyErr (Int × Int) :=
  match kv, nv with
  | .int k, .int n =>
    if n < 1 then .error (.valueError "Invalid n parameter. It should be >= 1")
    else if k < 0 then .error (.valueError "Invalid k parameter. It should be >= 0")
    else .ok (k, n)
  | _, _ => .error (.typeError "k and n arguments must be of int type")

/-- `BCubeTopo(k, n)`: the graph owned by the constructed object together
with the exception raised, if any.  A validation failure happens before any
node is added, so the object's graph is still empty then; the build itself
never fails (`bcubeBuild_ok` below), so the final `.error` branch is
unreachable. -/
def bcubeTopo (kv nv : PyVal) : Graph × Option PyErr :=
  match bcubeValidate kv nv with
  | .error e => (Graph.empty, some e)
  | .ok (kz, nz) =>
    match bcubeBuild kz.toNat nz.toNat with
    | .ok g => (g, none)
    | .error e => (Graph.empty, some e)

/-- The base offset `m = i % arg1 + i / arg1 * arg2` of switch position `i`
at a given level. -/
def bcubeM (n level i : Nat) : Nat :=
  i % n ^ level + i / n ^ level * n ^ (level + 1)

def bcubeHostNodes (k n : Nat) : List (Name × NodeKind) :=
  (List.range (n ^ (k + 1))).map (fun i => (bcubeHostName n i, NodeKind.host))

def bcubeSwitchNodes (k n : Nat) : List (Name × NodeKind) :=
  cm (List.range (k + 1)) (fun level =>
    (List.range (n ^ k)).map (fun i => (bcubeSwitchName level i, NodeKind.switch)))

def bcubeLevelLinks (k n level : Nat) : List (Name × Name) :=
  cm (List.range (n ^ k)) (fun i =>
    (List.range n).map (fun j =>
      (bcubeSwitchName level i, bcubeHostName n (bcubeM n level i + j * n ^ level))))

def bcubeLinks (k n : Nat) : List (Name × Name) :=
  cm (List.range (k + 1)) (bcubeLevelLinks k n)

/-- The graph produced by `BCubeTopo(k, n)` for validated parameters. -/
def bcubeGraphN (k n : Nat) : Graph :=
  ⟨bcubeHostNodes k n ++ bcubeSwitchNodes k n, bcubeLinks k n⟩

deriving instance DecidableEq for Except

/-- The host labels occupy positions `0, ..., N-1` of `g`'s insertion-ordered
node enumeration. -/
def HostPre (n N : Nat) (g : Graph) : Prop :=
  ∀ v, v < N → g.nodeNames[v]? = some (bcubeHostName n v)

def PyVal.isInt : PyVal → Bool
  | .int _ => true
  | _ => false

structure FTState where
  g : Graph
  c : List Name
  a : List Name
  e : List Name
  s : List Name
deriving DecidableEq

def ftCoreName (i : Nat) : Name := Name.fmt1 "c" (i + 1)

def ftAggrName (lbl : Nat) : Name := Name.fmt1 "a" lbl

def ftEdgeName (lbl : Nat) : Name := Name.fmt1 "e" lbl

def ftHostName (cnt : Nat) : Name := Name.fmt1 "h" cnt

/-- One iteration of the core loop: `sw = addSwitch('c{}'.format(i+1));
c.append(sw); s.append(sw)`. -/
def ftCoreStep (i : Nat) (st : FTState) : FTState :=
  ⟨st.g.addSwitch (ftCoreName i), st.c ++ [ftCoreName i], st.a, st.e,
    st.s ++ [ftCoreName i]⟩

/-- `sw = addSwitch('a{}'.format(i)); a.append(sw); s.append(sw)`. -/
def ftAggrAdd (i : Nat) (st : FTState) : FTState :=
  ⟨st.g.addSwitch (ftAggrName i), st.c, st.a ++ [ftAggrName i], st.e,
    st.s ++ [ftAggrName i]⟩

/-- `sw = addSwitch('e{}'.format(j)); e.append(sw); s.append(sw)`. -/
def ftEdgeAdd (j : Nat) (st : FTState) : FTState :=
  ⟨st.g.addSwitch (ftEdgeName j), st.c, st.a, st.e ++ [ftEdgeName j],
    st.s ++ [ftEdgeName j]⟩

/-- `self.addLink(s[x], s[y])`: Python list indexing raises `IndexError`
when out of range, then `addLink` runs. -/
def ftLinkIdx (x y : Nat) (st : FTState) : Except PyErr FTState :=
  match st.s[x]?, st.s[y]? with
  | some u, some v =>
    Except.map (fun g => ⟨g, st.c, st.a, st.e, st.s⟩) (st.g.addLink u v)
  | _, _ => .error PyErr.indexError

/-- One iteration of `for pod in xrange(k)` (lines 116-133). -/
def ftPodStep (k : Nat) (_pod : Nat) (st : FTState) : Except PyErr FTState :=
  let aggr_start := st.s.length + 1
  let aggr_end := aggr_start + k / 2
  let edge_start := aggr_end
  let edge_end := edge_start + k / 2
  let aggr_nodes := xrange2 aggr_start aggr_end
  let edge_nodes := xrange2 edge_start edge_end
  let st1 := forListP aggr_nodes ftAggrAdd st
  let st2 := forListP edge_nodes ftEdgeAdd st1
  forListE aggr_nodes (fun aa st =>
    forListE edge_nodes (fun ee st => ftLinkIdx (aa - 1) (ee - 1) st) st) st2

/-- One iteration of `for core_node in xrange(n_core)` (lines 136-139). -/
def ftCoreLinkStep (k r n_core : Nat) (core_node : Nat) (st : FTState) :
    Except PyErr FTState :=
  forRangeE k (fun pod st =>
    ftLinkIdx core_node (n_core + core_node / (k / 2 / r) + k * pod) st) st

/-- The body of `for i in xrange(k / 2)` in the host phase:
`host = addHost('h{}'.format(count)); addLink(sw, host); count += 1`. -/
def ftHostBody (sw : Name) (_i : Nat) (st2 : FTState × Nat) :
    Except PyErr (FTState × Nat) :=
  Except.map
    (fun g2 => ((⟨g2, st2.1.c, st2.1.a, st2.1.e, st2.1.s⟩ : FTState),
      st2.2 + 1))
    ((st2.1.g.addHost (ftHostName st2.2)).addLink sw (ftHostName st2.2))

/-- One iteration of `for sw in e` in the host phase (lines 143-147); the
second state component is the running `count`. -/
def ftHostStep (k : Nat) (sw : Name) (st : FTState × Nat) :
    Except PyErr (FTState × Nat) :=
  forRangeE (k / 2) (ftHostBody sw) st

/-- The body of `FatTreeTopo.__init__` after validation, on the validated
parameters mapped to `Nat` (all arithmetic on them in the source is
nonnegative). -/
def fatTreeBuild (k r : Nat) : Except PyErr Graph :=
  let n_core := (k / 2) ^ 2 / r
  let st1 := forRangeP n_core ftCoreStep ⟨Graph.empty, [], [], [], []⟩
  Except.bind (forRangeE k (ftPodStep k) st1) (fun st2 =>
    Except.bind (forRangeE n_core (ftCoreLinkStep k r n_core) st2) (fun st3 =>
      Except.map (fun stc => stc.1.g)
        (forListE st3.e (ftHostStep k) (st3, 1))))

/-- Parameter validation of `FatTreeTopo.__init__` (lines 99-106).  Python
evaluates `k // 2 % r` before the positivity check on `k`, so `r = 0`
raises `ZeroDivisionError`; `//` and `%` are floor division and remainder
(`Int.fdiv`, `Int.fmod`). -/
def fatTreeValidate (kv rv : PyVal) : Except PyErr (Int × Int) :=
  match kv, rv with
  | .int k, .int r =>
    if r = 0 then .error PyErr.zeroDivisionError
    else if (Int.fdiv k 2).fmod r ≠ 0 then
      .error (.valueError "k/2 must be divided exactly by r")
    else if k < 1 ∨ k.fmod 2 = 1 then
      .error (.valueError "k must be a positive even integer")
    else .ok (k, r)
  | .notInt _, _ => .error (.typeError "k argument must be of int type")
  | _, .notInt _ => .error (.typeError "r argument must be of int type")

/-- `FatTreeTopo(k, r)`: resulting graph and raised exception, if any.
A parameter pair that passes validation with `r < 0` (e.g. `r = -2` with
`k = 4`) maps to `r.toNat = 0` here; the build then creates zero core
switches, exactly as the Python source does for a negative `n_core`
(`xrange` of a negative count is empty and the division `(k//2)//r` is
only reached inside that empty loop). -/
def fatTreeTopo (kv rv : PyVal) : Graph × Option PyErr :=
  match fatTreeValidate kv rv with
  | .error e => (Graph.empty, some e)
  | .ok (kz, rz) =>
    match fatTreeBuild kz.toNat rz.toNat with
    | .ok g => (g, none)
    | .error e => (Graph.empty, some e)

def ftNCore (k r : Nat) : Nat := (k / 2) ^ 2 / r

/-- Label of the `t`-th aggregation switch of pod `p` (1-based, offset into
the global switch ordering). -/
def ftAggrLabel (k r p t : Nat) : Nat := ftNCore k r + p * k + t + 1

/-- Label of the `u`-th edge switch of pod `p`. -/
def ftEdgeLabel (k r p u : Nat) : Nat := ftNCore k r + p * k + k / 2 + u + 1

def ftCoreNames (k r : Nat) : List Name :=
  (List.range (ftNCore k r)).map ftCoreName

def ftPodAggrNames (k r p : Nat) : List Name :=
  (List.range (k / 2)).map (fun t => ftAggrName (ftAggrLabel k r p t))

def ftPodEdgeNames (k r p : Nat) : List Name :=
  (List.range (k / 2)).map (fun u => ftEdgeName (ftEdgeLabel k r p u))

/-- The global switch ordering `s`: core switches first, then each pod's
aggregation switches followed by its edge switches. -/
def ftSwitchNames (k r : Nat) : List Name :=
  ftCoreNames k r ++
    cm (List.range k) (fun p => ftPodAggrNames k r p ++ ftPodEdgeNames k r p)

/-- The edge list `e`: pods in order, each pod's edge switches in order. -/
def ftEdgeNames (k r : Nat) : List Name :=
  cm (List.range k) (ftPodEdgeNames k r)

def ftPodLinks (k r p : Nat) : List (Name × Name) :=
  cm (List.range (k / 2)) (fun t =>
    (List.range (k / 2)).map (fun u =>
      (ftAggrName (ftAggrLabel k r p t), ftEdgeName (ftEdgeLabel k r p u))))

def ftCoreLinks (k r : Nat) : List (Name × Name) :=
  cm (List.range (ftNCore k r)) (fun c =>
    (List.range k).map (fun p =>
      (ftCoreName c, ftAggrName (ftAggrLabel k r p (c / (k / 2 / r))))))

/-- Host nodes created for a list `E` of edge switches, with running
counter `cnt` (`h = k/2` hosts per edge switch). -/
def ftHostsFrom (h cnt : Nat) : List Name → List (Name × NodeKind)
  | [] => []
  | _ :: rest =>
    (List.range h).map (fun i2 => (ftHostName (cnt + i2), NodeKind.host)) ++
      ftHostsFrom h (cnt + h) rest

def ftHostLinksFrom (h cnt : Nat) : List Name → List (Name × Name)
  | [] => []
  | sw :: rest =>
    (List.range h).map (fun i2 => (sw, ftHostName (cnt + i2))) ++
      ftHostLinksFrom h (cnt + h) rest

def ftSwitchNodes (k r : Nat) : List (Name × NodeKind) :=
  (ftSwitchNames k r).map (fun x => (x, NodeKind.switch))

def ftHostNodes (k r : Nat) : List (Name × NodeKind) :=
  ftHostsFrom (k / 2) 1 (ftEdgeNames k r)

def ftHostLinks (k r : Nat) : List (Name × Name) :=
  ftHostLinksFrom (k / 2) 1 (ftEdgeNames k r)

/-- The graph produced by `FatTreeTopo(k, r)` for validated parameters. -/
def fatTreeGraphN (k r : Nat) : Graph :=
  ⟨ftSwitchNodes k r ++ ftHostNodes k r,
    cm (List.range k) (ftPodLinks k r) ++ ftCoreLinks k r ++ ftHostLinks k r⟩

def ftSNamesUpTo (k r p : Nat) : List Name :=
  ftCoreNames k r ++
    cm (List.range p) (fun q => ftPodAggrNames k r q ++ ftPodEdgeNames k r q)

/-- The builder state after the core phase and the first `p` pods. -/
def ftPodState (k r p : Nat) : FTState :=
  ⟨⟨(ftSNamesUpTo k r p).map (fun x => (x, NodeKind.switch)),
      cm (List.range p) (ftPodLinks k r)⟩,
    ftCoreNames k r,
    cm (List.range p) (ftPodAggrNames k r),
    cm (List.range p) (ftPodEdgeNames k r),
    ftSNamesUpTo k r p⟩

theorem ebind_ok (a : α) (f : α → Except ε β) :
    Except.bind (Except.ok a) f = f a := rfl

theorem ebind_error (e : ε) (f : α → Except ε β) :
    Except.bind (Except.error e) f = Except.error e := rfl

theorem ebind_pure (e : Except ε α) : Except.bind e Except.ok = e := by
  cases e <;> rfl

theorem forListP_nil (f : α → σ → σ) (s : σ) : forListP [] f s = s := rfl

theorem forListP_cons (x : α) (xs : List α) (f : α → σ → σ) (s : σ) :
    forListP (x :: xs) f s = forListP xs f (f x s) := rfl

theorem forListP_append (l₁ l₂ : List α) (f : α → σ → σ) (s : σ) :
    forListP (l₁ ++ l₂) f s = forListP l₂ f (forListP l₁ f s) := by
  induction l₁ generalizing s with
  | nil => rfl
  | cons x xs ih => simp [forListP_cons, ih]

theorem forRangeP_succ (c : Nat) (f : Nat → σ → σ) (s : σ) :
    forRangeP (c + 1) f s = f c (forRangeP c f s) := by
  simp [forRangeP, List.range_succ, forListP_append, forListP]

theorem forListE_nil (f : α → σ → Except ε σ) (s : σ) :
    forListE [] f s = .ok s := rfl

theorem forListE_cons (x : α) (xs : List α) (f : α → σ → Except ε σ) (s : σ) :
    forListE (x :: xs) f s = Except.bind (f x s) (forListE xs f) := rfl

theorem forListE_append (l₁ l₂ : List α) (f : α → σ → Except ε σ) (s : σ) :
    forListE (l₁ ++ l₂) f s =
      Except.bind (forListE l₁ f s) (forListE l₂ f) := by
  induction l₁ generalizing s with
  | nil => simp [forListE_nil, ebind_ok]
  | cons x xs ih =>
    simp only [List.cons_append, forListE_cons]
    cases f x s with
    | ok a => simp [ebind_ok, ih]
    | error e => simp [ebind_error]

theorem forRangeE_succ (c : Nat) (f : Nat → σ → Except ε σ) (s : σ) :
    forRangeE (c + 1) f s = Except.bind (forRangeE c f s) (f c) := by
  simp only [forRangeE, List.range_succ, forListE_append]
  congr 1
  funext s2
  show Except.bind (f c s2) (forListE [] f) = f c s2
  cases f c s2 <;> rfl

theorem forRangeE_zero (f : Nat → σ → Except ε σ) (s : σ) :
    forRangeE 0 f s = .ok s := rfl

theorem cm_nil (f : α → List β) : cm [] f = [] := rfl

theorem cm_cons (x : α) (xs : List α) (f : α → List β) :
    cm (x :: xs) f = f x ++ cm xs f := rfl

theorem cm_append (l₁ l₂ : List α) (f : α → List β) :
    cm (l₁ ++ l₂) f = cm l₁ f ++ cm l₂ f := by
  induction l₁ with
  | nil => rfl
  | cons x xs ih => simp [cm_cons, ih]

theorem length_cm (l : List α) (f : α → List β) :
    (cm l f).length = (l.map fun a => (f a).length).sum := by
  induction l with
  | nil => rfl
  | cons x xs ih => simp [cm_cons, ih]

theorem countP_cm (l : List α) (f : α → List β) (p : β → Bool) :
    (cm l f).countP p = (l.map fun a => (f a).countP p).sum := by
  induction l with
  | nil => rfl
  | cons x xs ih => simp [cm_cons, List.countP_append, ih]

theorem mem_cm {l : List α} {f : α → List β} {x : β} :
    x ∈ cm l f ↔ ∃ a, a ∈ l ∧ x ∈ f a := by
  induction l with
  | nil => simp [cm_nil]
  | cons y ys ih =>
    simp only [cm_cons, List.mem_append, ih, List.mem_cons]
    constructor
    · rintro (h | ⟨a, ha, hx⟩)
      · exact ⟨y, Or.inl rfl, h⟩
      · exact ⟨a, Or.inr ha, hx⟩
    · rintro ⟨a, (rfl | ha), hx⟩
      · exact Or.inl hx
      · exact Or.inr ⟨a, ha, hx⟩

theorem xrange3_eq (m a n : Nat) (ha : 1 ≤ a) :
    xrange3 m (m + n * a) a = (List.range n).map (fun j => m + j * a) := by
  have h1 : m + n * a - m + a - 1 = a - 1 + n * a := by omega
  have h2 : (a - 1 + n * a) / a = n := by
    rw [Nat.add_mul_div_right _ _ (by omega : 0 < a), Nat.div_eq_of_lt (by omega)]
    omega
  unfold xrange3
  rw [h1, h2]

theorem emap_ok (f : α → β) (a : α) :
    Except.map (ε := ε) f (Except.ok a) = Except.ok (f a) := rfl

theorem emap_error (f : α → β) (e : ε) :
    Except.map (α := α) f (Except.error e) = Except.error e := rfl

theorem hostPre_appendNodes (n N : Nat) (g : Graph) (h : HostPre n N g)
    (xs : List (Name × NodeKind)) (ls : List (Name × Name)) :
    HostPre n N ⟨g.nodes ++ xs, ls⟩ := by
  intro v hv
  have hsome := h v hv
  have hlt : v < g.nodeNames.length := (List.getElem?_eq_some.mp hsome).1
  show ((g.nodes ++ xs).map Prod.fst)[v]? = _
  rw [List.map_append, List.getElem?_append,
    if_pos (by simpa [Graph.nodeNames] using hlt)]
  exact hsome

theorem hostPre_base (k n : Nat) (ls : List (Name × Name)) :
    HostPre n (n ^ (k + 1)) ⟨bcubeHostNodes k n, ls⟩ := by
  intro v hv
  show ((bcubeHostNodes k n).map Prod.fst)[v]? = _
  rw [bcubeHostNodes, List.map_map, List.getElem?_map, List.getElem?_range hv]
  rfl

theorem bcube_hosts_phase (n N : Nat) :
    forRangeP N (fun i g => g.addHost (bcubeHostName n i)) Graph.empty =
      ⟨(List.range N).map (fun i => (bcubeHostName n i, NodeKind.host)), []⟩ := by
  induction N with
  | zero => rfl
  | succ c ih =>
    rw [forRangeP_succ, ih]
    simp [Graph.addHost, List.range_succ]

theorem bcube_linkLoop (f : Nat → Name) (sw : Name) (vs : List Nat)
    (nl : List Name) (g : Graph) (hnl : nl = g.nodeNames)
    (hsw : sw ∈ g.nodeNames) (hvs : ∀ v ∈ vs, nl[v]? = some (f v)) :
    forListE vs (bcubeLinkStep nl sw) g =
      .ok ⟨g.nodes, g.links ++ vs.map (fun v => (sw, f v))⟩ := by
  induction vs generalizing g with
  | nil => simp [forListE_nil]
  | cons v vs ih =>
    have hv : nl[v]? = some (f v) := hvs v (List.mem_cons_self v vs)
    have hfv : f v ∈ g.nodeNames := by
      rw [hnl] at hv; exact List.getElem?_mem hv
    rw [forListE_cons]
    show Except.bind (bcubeLinkStep nl sw v g) _ = _
    rw [bcubeLinkStep, hv]
    show Except.bind (g.addLink sw (f v)) _ = _
    rw [Graph.addLink, if_pos ⟨hsw, hfv⟩, ebind_ok]
    have := ih ⟨g.nodes, g.links ++ [(sw, f v)]⟩ hnl hsw
      (fun w hw => hvs w (List.mem_cons_of_mem v hw))
    rw [this]
    simp

/-- The main arithmetic bound: every positional index used by the link loop
of switch `i` at `level` refers to one of the `n ^ (k+1)` hosts. -/
theorem bcube_index_lt (k n level i j : Nat) (hn : 1 ≤ n) (hlev : level ≤ k)
    (hi : i < n ^ k) (hj : j < n) :
    bcubeM n level i + j * n ^ level < n ^ (k + 1) := by
  have ha : 1 ≤ n ^ level := Nat.one_le_pow _ _ (by omega)
  have hQ : n ^ k = n ^ (k - level) * n ^ level := by
    rw [← pow_add]; congr 1; omega
  have hQ1 : 1 ≤ n ^ (k - level) := Nat.one_le_pow _ _ (by omega)
  have hK1 : n ^ (k + 1) = n ^ (k - level) * (n ^ level * n) := by
    rw [← pow_succ, ← pow_add]; congr 1; omega
  have harg2 : n ^ (level + 1) = n ^ level * n := pow_succ n level
  have hma : i % n ^ level < n ^ level := Nat.mod_lt _ (by omega)
  obtain ⟨nm, rfl⟩ : ∃ nm, n = nm + 1 := ⟨n - 1, by omega⟩
  have hja : j * (nm + 1) ^ level ≤ nm * (nm + 1) ^ level :=
    Nat.mul_le_mul_right _ (by omega)
  have hd : i / (nm + 1) ^ level < (nm + 1) ^ (k - level) := by
    apply (Nat.div_lt_iff_lt_mul (by omega : 0 < (nm + 1) ^ level)).mpr
    rw [hQ] at hi
    omega
  have hdm : i / (nm + 1) ^ level + 1 ≤ (nm + 1) ^ (k - level) := hd
  have hmul : (i / (nm + 1) ^ level + 1) * ((nm + 1) ^ level * (nm + 1)) ≤
      (nm + 1) ^ (k - level) * ((nm + 1) ^ level * (nm + 1)) :=
    Nat.mul_le_mul_right _ hdm
  rw [bcubeM, harg2, hK1]
  have hexp : i % (nm + 1) ^ level + i / (nm + 1) ^ level *
        ((nm + 1) ^ level * (nm + 1)) + j * (nm + 1) ^ level <
      (i / (nm + 1) ^ level + 1) * ((nm + 1) ^ level * (nm + 1)) := by
    have h1 : (i / (nm + 1) ^ level + 1) * ((nm + 1) ^ level * (nm + 1)) =
        i / (nm + 1) ^ level * ((nm + 1) ^ level * (nm + 1)) +
          ((nm + 1) ^ level * nm + (nm + 1) ^ level) := by ring
    have h2 : j * (nm + 1) ^ level ≤ (nm + 1) ^ level * nm := by
      rw [mul_comm ((nm + 1) ^ level) nm]; exact hja
    omega
  omega

theorem bcube_switchLoop (k n level : Nat) (hn : 1 ≤ n) (hlev : level ≤ k)
    (c : Nat) (hc : c ≤ n ^ k) (g : Graph) (hg : HostPre n (n ^ (k + 1)) g) :
    forRangeE c (bcubeSwitchStep n level) (g, 0) =
      .ok (⟨g.nodes ++ (List.range c).map
              (fun i => (bcubeSwitchName level i, NodeKind.switch)),
            g.links ++ cm (List.range c) (fun i =>
              (List.range n).map (fun j =>
                (bcubeSwitchName level i,
                 bcubeHostName n (bcubeM n level i + j * n ^ level))))⟩, c) := by
  induction c with
  | zero =>
    rw [forRangeE_zero]
    simp [cm_nil]
  | succ c ih =>
    rw [forRangeE_succ, ih (by omega), ebind_ok]
    -- the graph accumulated after the first `c` switches of this level
    set gc : Graph :=
      ⟨g.nodes ++ (List.range c).map
          (fun i => (bcubeSwitchName level i, NodeKind.switch)),
        g.links ++ cm (List.range c) (fun i =>
          (List.range n).map (fun j =>
            (bcubeSwitchName level i,
             bcubeHostName n (bcubeM n level i + j * n ^ level))))⟩ with hgc
    show bcubeSwitchStep n level c (gc, c) = _
    rw [bcubeSwitchStep]
    have hg2 : Graph.addSwitch gc (bcubeSwitchName level c) =
        ⟨gc.nodes ++ [(bcubeSwitchName level c, NodeKind.switch)], gc.links⟩ := rfl
    simp only [hg2]
    set g2 : Graph :=
      ⟨gc.nodes ++ [(bcubeSwitchName level c, NodeKind.switch)], gc.links⟩ with hg2d
    have hpre2 : HostPre n (n ^ (k + 1)) g2 := by
      rw [hg2d, hgc]
      exact hostPre_appendNodes n _ _ (hostPre_appendNodes n _ g hg _ _) _ _
    have hfold : c % n ^ level + c / n ^ level * n ^ (level + 1) =
        bcubeM n level c := rfl
    rw [hfold]
    have hxr : xrange3 (bcubeM n level c)
        (bcubeM n level c + n ^ (level + 1)) (n ^ level) =
        (List.range n).map (fun j => bcubeM n level c + j * n ^ level) := by
      have h2 : bcubeM n level c + n ^ (level + 1) =
          bcubeM n level c + n * n ^ level := by
        rw [pow_succ, mul_comm]
      rw [h2]
      exact xrange3_eq _ _ _ (Nat.one_le_pow _ _ (by omega))
    rw [hxr]
    have hsw : bcubeSwitchName level c ∈ g2.nodeNames := by
      show bcubeSwitchName level c ∈ (gc.nodes ++ _).map Prod.fst
      rw [List.map_append]
      exact List.mem_append_right _ (by simp)
    have hlink := bcube_linkLoop (bcubeHostName n) (bcubeSwitchName level c)
      ((List.range n).map (fun j => bcubeM n level c + j * n ^ level))
      g2.nodeNames g2 rfl hsw
      (by
        intro v hv
        simp only [List.mem_map, List.mem_range] at hv
        obtain ⟨j, hj, rfl⟩ := hv
        exact hpre2 _ (bcube_index_lt k n level c j hn hlev (by omega) hj))
    rw [hlink, emap_ok]
    rw [hg2d, hgc]
    simp only [List.range_succ, List.map_append, cm_append, List.append_assoc,
      List.map_cons, List.map_nil, cm_cons, cm_nil, List.append_nil,
      List.map_map, Function.comp_def]

theorem bcube_levelLoop (k n : Nat) (hn : 1 ≤ n) (c : Nat) (hc : c ≤ k + 1) :
    forRangeE c (bcubeLevelStep n k) ⟨bcubeHostNodes k n, []⟩ =
      .ok ⟨bcubeHostNodes k n ++ cm (List.range c) (fun level =>
              (List.range (n ^ k)).map
                (fun i => (bcubeSwitchName level i, NodeKind.switch))),
            cm (List.range c) (bcubeLevelLinks k n)⟩ := by
  induction c with
  | zero =>
    rw [forRangeE_zero]
    simp [cm_nil]
  | succ c ih =>
    rw [forRangeE_succ, ih (by omega), ebind_ok]
    set gc : Graph :=
      ⟨bcubeHostNodes k n ++ cm (List.range c) (fun level =>
          (List.range (n ^ k)).map
            (fun i => (bcubeSwitchName level i, NodeKind.switch))),
        cm (List.range c) (bcubeLevelLinks k n)⟩ with hgc
    show bcubeLevelStep n k c gc = _
    rw [bcubeLevelStep]
    have hpre : HostPre n (n ^ (k + 1)) gc := by
      rw [hgc]
      exact hostPre_appendNodes n _ ⟨bcubeHostNodes k n, []⟩ (hostPre_base k n []) _ _
    rw [bcube_switchLoop k n c hn (by omega) (n ^ k) le_rfl gc hpre, emap_ok]
    rw [hgc]
    simp only [List.range_succ, cm_append, cm_cons, cm_nil, List.append_assoc,
      List.append_nil]
    rfl

/-- For every validated parameter pair the BCube builder succeeds and
produces exactly the closed-form graph `bcubeGraphN k n`. -/
theorem bcubeBuild_ok (k n : Nat) (hn : 1 ≤ n) :
    bcubeBuild k n = .ok (bcubeGraphN k n) := by
  rw [bcubeBuild]
  show forRangeE (k + 1) (bcubeLevelStep n k) _ = _
  rw [bcube_hosts_phase]
  have := bcube_levelLoop k n hn (k + 1) le_rfl
  rw [show ((List.range (n ^ (k + 1))).map
        (fun i => (bcubeHostName n i, NodeKind.host))) = bcubeHostNodes k n from rfl]
  rw [this]
  rfl

theorem sum_map_eq_const (l : List α) (f : α → Nat) (m : Nat)
    (h : ∀ a ∈ l, f a = m) : (l.map f).sum = l.length * m := by
  induction l with
  | nil => simp
  | cons x xs ih =>
    simp only [List.map_cons, List.sum_cons, List.length_cons]
    rw [h x (List.mem_cons_self x xs),
      ih (fun a ha => h a (List.mem_cons_of_mem x ha))]
    ring

theorem countP_const_list (b : Bool) (l : List α) :
    l.countP (fun _ => b) = if b then l.length else 0 := by
  induction l with
  | nil => simp
  | cons x xs ih => cases b <;> simp [List.countP_cons, ih]

theorem countP_eq_one_of_nodup_mem {l : List Nat} {v : Nat}
    (hn : l.Nodup) (hm : v ∈ l) : l.countP (fun x => x = v) = 1 := by
  induction l with
  | nil => cases hm
  | cons x xs ih =>
    rw [List.countP_cons]
    rcases List.mem_cons.mp hm with rfl | hmem
    · have hv : v ∉ xs := (List.nodup_cons.mp hn).1
      rw [List.countP_eq_zero.mpr ?_]
      · simp
      · intro a ha
        simp only [decide_eq_true_eq]
        intro hav
        exact hv (hav ▸ ha)
    · rw [ih (List.nodup_cons.mp hn).2 hmem]
      have hx : x ≠ v := fun h => (List.nodup_cons.mp hn).1 (h ▸ hmem)
      simp [hx]

theorem sum_map_indicator (c I m : Nat) (hI : I < c) :
    ((List.range c).map (fun i => if i = I then m else 0)).sum = m := by
  induction c with
  | zero => omega
  | succ c ih =>
    rw [List.range_succ, List.map_append, List.sum_append]
    by_cases h : I = c
    · subst h
      have hz : ((List.range I).map (fun i => if i = I then m else 0)).sum = 0 := by
        rw [sum_map_eq_const _ _ 0 ?_, Nat.mul_zero]
        intro a ha
        simp only [List.mem_range] at ha
        simp [Nat.ne_of_lt ha]
      simp [hz]
    · have hI' : I < c := by omega
      rw [ih hI']
      simp only [List.map_cons, List.map_nil, List.sum_cons, List.sum_nil]
      rw [if_neg (fun hh => h hh.symm)]
      omega

theorem nodup_cm {l : List α} {f : α → List β} (hl : l.Nodup)
    (hf : ∀ a ∈ l, (f a).Nodup)
    (hd : ∀ a ∈ l, ∀ b ∈ l, a ≠ b → ∀ x ∈ f a, x ∉ f b) :
    (cm l f).Nodup := by
  induction l with
  | nil => exact List.nodup_nil
  | cons x xs ih =>
    rw [cm_cons, List.nodup_append]
    refine ⟨hf x (List.mem_cons_self x xs),
      ih (List.nodup_cons.mp hl).2
        (fun a ha => hf a (List.mem_cons_of_mem x ha))
        (fun a ha b hb hab => hd a (List.mem_cons_of_mem x ha) b
          (List.mem_cons_of_mem x hb) hab), ?_⟩
    intro t ht htc
    obtain ⟨a, ha, hta⟩ := mem_cm.mp htc
    have hxa : x ≠ a := fun h => (List.nodup_cons.mp hl).1 (h ▸ ha)
    exact hd x (List.mem_cons_self x xs) a (List.mem_cons_of_mem x ha) hxa t ht hta

theorem bcube_idx_decomp (n level i j : Nat) (hn : 1 ≤ n) (hj : j < n) :
    (bcubeM n level i + j * n ^ level) % n ^ level = i % n ^ level ∧
    (bcubeM n level i + j * n ^ level) / n ^ level % n = j ∧
    (bcubeM n level i + j * n ^ level) / n ^ level / n = i / n ^ level := by
  have ha : 0 < n ^ level := Nat.one_le_pow _ _ (by omega)
  have hid : bcubeM n level i + j * n ^ level =
      i % n ^ level + (j + i / n ^ level * n) * n ^ level := by
    rw [bcubeM, pow_succ]
    ring
  have hdiv : (bcubeM n level i + j * n ^ level) / n ^ level =
      j + i / n ^ level * n := by
    rw [hid, Nat.add_mul_div_right _ _ ha, Nat.div_eq_of_lt (Nat.mod_lt _ ha),
      Nat.zero_add]
  refine ⟨?_, ?_, ?_⟩
  · rw [hid, Nat.add_mul_mod_self_right, Nat.mod_eq_of_lt (Nat.mod_lt _ ha)]
  · rw [hdiv, Nat.add_mul_mod_self_right, Nat.mod_eq_of_lt hj]
  · rw [hdiv, Nat.add_mul_div_right _ _ (show 0 < n by omega),
      Nat.div_eq_of_lt hj, Nat.zero_add]

theorem bcube_idx_inj (n level : Nat) (hn : 1 ≤ n) {i j i' j' : Nat}
    (hj : j < n) (hj' : j' < n)
    (h : bcubeM n level i + j * n ^ level = bcubeM n level i' + j' * n ^ level) :
    i = i' ∧ j = j' := by
  obtain ⟨m1, d1, q1⟩ := bcube_idx_decomp n level i j hn hj
  obtain ⟨m1', d1', q1'⟩ := bcube_idx_decomp n level i' j' hn hj'
  rw [h] at m1 d1 q1
  have hmod : i' % n ^ level = i % n ^ level := m1'.symm.trans m1
  have hjj : j' = j := d1'.symm.trans d1
  have hdivq : i' / n ^ level = i / n ^ level := q1'.symm.trans q1
  have h1 : i % n ^ level + n ^ level * (i / n ^ level) = i := Nat.mod_add_div i _
  have h2 : i' % n ^ level + n ^ level * (i' / n ^ level) = i' := Nat.mod_add_div i' _
  rw [hmod, hdivq] at h2
  exact ⟨h1.symm.trans h2, hjj.symm⟩

theorem bcube_idx_surj (k n level : Nat) (hn : 1 ≤ n) (hlev : level ≤ k)
    (v : Nat) (hv : v < n ^ (k + 1)) :
    ∃ i, i < n ^ k ∧ ∃ j, j < n ∧ bcubeM n level i + j * n ^ level = v := by
  have ha : 0 < n ^ level := Nat.one_le_pow _ _ (by omega)
  have hK1 : n ^ (k + 1) = n ^ (k - level) * (n ^ level * n) := by
    rw [← pow_succ, ← pow_add]
    congr 1
    omega
  have hQ : n ^ k = n ^ (k - level) * n ^ level := by
    rw [← pow_add]
    congr 1
    omega
  have hq : v / (n ^ level * n) < n ^ (k - level) := by
    apply (Nat.div_lt_iff_lt_mul (by positivity)).mpr
    rw [← hK1]
    exact hv
  have hi : v % n ^ level + v / (n ^ level * n) * n ^ level < n ^ k := by
    rw [hQ]
    have h1 : v % n ^ level < n ^ level := Nat.mod_lt _ ha
    have h2 : v / (n ^ level * n) + 1 ≤ n ^ (k - level) := hq
    calc v % n ^ level + v / (n ^ level * n) * n ^ level
        < n ^ level + v / (n ^ level * n) * n ^ level := by omega
      _ = (v / (n ^ level * n) + 1) * n ^ level := by ring
      _ ≤ n ^ (k - level) * n ^ level := Nat.mul_le_mul_right _ h2
  refine ⟨v % n ^ level + v / (n ^ level * n) * n ^ level, hi,
    v / n ^ level % n, Nat.mod_lt _ (by omega), ?_⟩
  have him : (v % n ^ level + v / (n ^ level * n) * n ^ level) % n ^ level =
      v % n ^ level := by
    rw [Nat.add_mul_mod_self_right, Nat.mod_eq_of_lt (Nat.mod_lt _ ha)]
  have hidv : (v % n ^ level + v / (n ^ level * n) * n ^ level) / n ^ level =
      v / (n ^ level * n) := by
    rw [Nat.add_mul_div_right _ _ ha, Nat.div_eq_of_lt (Nat.mod_lt _ ha),
      Nat.zero_add]
  rw [bcubeM, him, hidv]
  have hps : n ^ (level + 1) = n ^ level * n := pow_succ n level
  rw [hps]
  have h2' : v / n ^ level % n + n * (v / (n ^ level * n)) = v / n ^ level := by
    rw [← Nat.div_div_eq_div_mul]
    exact Nat.mod_add_div _ _
  have h1' : v % n ^ level + n ^ level * (v / n ^ level) = v := Nat.mod_add_div v _
  calc v % n ^ level + v / (n ^ level * n) * (n ^ level * n) +
        v / n ^ level % n * n ^ level
      = v % n ^ level +
          n ^ level * (v / n ^ level % n + n * (v / (n ^ level * n))) := by ring
    _ = v % n ^ level + n ^ level * (v / n ^ level) := by rw [h2']
    _ = v := h1'

theorem bcube_level_count (k n level : Nat) (hn : 1 ≤ n) (hlev : level ≤ k)
    (v : Nat) (hv : v < n ^ (k + 1)) :
    (cm (List.range (n ^ k)) (fun i =>
      (List.range n).map (fun j => bcubeM n level i + j * n ^ level))).countP
        (fun x => x = v) = 1 := by
  apply countP_eq_one_of_nodup_mem
  · apply nodup_cm (List.nodup_range _)
    · intro i hi
      apply List.Nodup.map_on ?_ (List.nodup_range n)
      intro j hj j' hj' hjj
      simp only [List.mem_range] at hj hj'
      exact (bcube_idx_inj n level hn hj hj' hjj).2
    · intro i hi i' hi' hne x hx hx'
      simp only [List.mem_map, List.mem_range] at hx hx'
      obtain ⟨j, hj, rfl⟩ := hx
      obtain ⟨j', hj', hpair⟩ := hx'
      exact hne ((bcube_idx_inj n level hn hj' hj hpair).1).symm
  · obtain ⟨i, hi, j, hj, hidx⟩ := bcube_idx_surj k n level hn hlev v hv
    apply mem_cm.mpr
    exact ⟨i, List.mem_range.mpr hi, List.mem_map.mpr
      ⟨j, List.mem_range.mpr hj, hidx⟩⟩

theorem bcubeHostName_inj {n v w : Nat} (h : bcubeHostName n v = bcubeHostName n w) :
    v = w := by
  rw [bcubeHostName, bcubeHostName] at h
  injection h with ht h1 h2
  have hv := Nat.mod_add_div v n
  have hw := Nat.mod_add_div w n
  rw [h1, h2] at hv
  exact hv.symm.trans hw

theorem bcubeSwitchName_inj {l i l' i' : Nat}
    (h : bcubeSwitchName l i = bcubeSwitchName l' i') : l = l' ∧ i = i' := by
  rw [bcubeSwitchName, bcubeSwitchName] at h
  injection h with ht h1 h2
  exact ⟨h1, h2⟩

theorem bcube_sName_ne_hName (l i n v : Nat) :
    bcubeSwitchName l i ≠ bcubeHostName n v := by
  intro h
  have htag : ("s" : String) = "h" := congrArg Name.tag h
  exact absurd htag (by decide)

theorem countP_map_const (l : List α) (f : α → β) (p : β → Bool) (b : Bool)
    (h : ∀ a ∈ l, p (f a) = b) : (l.map f).countP p = if b then l.length else 0 := by
  rw [List.countP_map]
  have hpt : ∀ a ∈ l, (p ∘ f) a = true ↔ (fun _ => b) a = true := by
    intro a ha
    simp [Function.comp, h a ha]
  rw [List.countP_congr hpt, countP_const_list]

theorem bcube_host_degree (k n : Nat) (hn : 1 ≤ n) (v : Nat) (hv : v < n ^ (k + 1)) :
    (bcubeGraphN k n).degree (bcubeHostName n v) = k + 1 := by
  show (bcubeLinks k n).countP _ = k + 1
  rw [bcubeLinks, countP_cm]
  rw [sum_map_eq_const _ _ 1 ?_]
  · rw [List.length_range, Nat.mul_one]
  · intro level hlev
    have hlev' : level ≤ k := by
      simp only [List.mem_range] at hlev
      omega
    rw [bcubeLevelLinks, countP_cm]
    have hcongr : ∀ i ∈ List.range (n ^ k),
        ((List.range n).map (fun j => (bcubeSwitchName level i,
            bcubeHostName n (bcubeM n level i + j * n ^ level)))).countP
          (fun e => e.1 = bcubeHostName n v ∨ e.2 = bcubeHostName n v) =
        ((List.range n).map
            (fun j => bcubeM n level i + j * n ^ level)).countP
          (fun x => x = v) := by
      intro i hi
      rw [List.countP_map, List.countP_map]
      apply List.countP_congr
      intro j hj
      simp only [Function.comp_apply, decide_eq_true_eq]
      constructor
      · rintro (h1 | h2)
        · exact absurd h1 (bcube_sName_ne_hName level i n v)
        · exact bcubeHostName_inj h2
      · intro hjv
        exact Or.inr (congrArg (bcubeHostName n) hjv)
    rw [List.map_congr_left hcongr, ← countP_cm]
    exact bcube_level_count k n level hn hlev' v hv

theorem bcube_switch_degree (k n : Nat) (hn : 1 ≤ n) (L I : Nat)
    (hL : L < k + 1) (hI : I < n ^ k) :
    (bcubeGraphN k n).degree (bcubeSwitchName L I) = n := by
  show (bcubeLinks k n).countP _ = n
  rw [bcubeLinks, countP_cm]
  have hterm : ∀ level ∈ List.range (k + 1),
      (bcubeLevelLinks k n level).countP
        (fun e => e.1 = bcubeSwitchName L I ∨ e.2 = bcubeSwitchName L I) =
      if level = L then n else 0 := by
    intro level hlev
    rw [bcubeLevelLinks, countP_cm]
    have hinner : ∀ i ∈ List.range (n ^ k),
        ((List.range n).map (fun j => (bcubeSwitchName level i,
            bcubeHostName n (bcubeM n level i + j * n ^ level)))).countP
          (fun e => e.1 = bcubeSwitchName L I ∨ e.2 = bcubeSwitchName L I) =
        if level = L ∧ i = I then n else 0 := by
      intro i hi
      rw [countP_map_const _ _ _ (decide (level = L ∧ i = I)) ?_]
      · rw [List.length_range]
        by_cases hcase : level = L ∧ i = I
        · rw [if_pos hcase, if_pos (by simpa using hcase)]
        · rw [if_neg hcase, if_neg (by simpa using hcase)]
      · intro j hj
        simp only [decide_eq_decide]
        constructor
        · rintro (h1 | h2)
          · exact ⟨(bcubeSwitchName_inj h1).1, (bcubeSwitchName_inj h1).2⟩
          · exact absurd h2.symm (bcube_sName_ne_hName L I n _)
        · rintro ⟨rfl, rfl⟩
          exact Or.inl rfl
    rw [List.map_congr_left hinner]
    by_cases hLl : level = L
    · subst hLl
      rw [if_pos rfl]
      have hsimp : ∀ i ∈ List.range (n ^ k),
          (if level = level ∧ i = I then n else 0) = (if i = I then n else 0) := by
        intro i hi
        by_cases hiI : i = I <;> simp [hiI]
      rw [List.map_congr_left hsimp]
      exact sum_map_indicator _ _ _ hI
    · rw [if_neg hLl]
      rw [sum_map_eq_const _ _ 0 ?_, Nat.mul_zero]
      intro i hi
      rw [if_neg (fun hc => hLl hc.1)]
  rw [List.map_congr_left hterm]
  exact sum_map_indicator _ _ _ hL

theorem bcube_host_count (k n : Nat) :
    (bcubeGraphN k n).kindCount NodeKind.host = n ^ (k + 1) := by
  show (bcubeHostNodes k n ++ bcubeSwitchNodes k n).countP _ = _
  rw [List.countP_append]
  have h1 : (bcubeHostNodes k n).countP
      (fun x => x.2 = NodeKind.host) = n ^ (k + 1) := by
    rw [bcubeHostNodes, countP_map_const _ _ _ true (by intro a ha; simp)]
    simp
  have h2 : (bcubeSwitchNodes k n).countP
      (fun x => x.2 = NodeKind.host) = 0 := by
    rw [bcubeSwitchNodes, countP_cm, sum_map_eq_const _ _ 0 ?_, Nat.mul_zero]
    intro level hlev
    rw [countP_map_const _ _ _ false (by intro a ha; simp)]
    simp
  rw [h1, h2]
  omega

theorem bcube_switch_count (k n : Nat) :
    (bcubeGraphN k n).kindCount NodeKind.switch = (k + 1) * n ^ k := by
  show (bcubeHostNodes k n ++ bcubeSwitchNodes k n).countP _ = _
  rw [List.countP_append]
  have h1 : (bcubeHostNodes k n).countP
      (fun x => x.2 = NodeKind.switch) = 0 := by
    rw [bcubeHostNodes, countP_map_const _ _ _ false (by intro a ha; simp)]
    simp
  have h2 : (bcubeSwitchNodes k n).countP
      (fun x => x.2 = NodeKind.switch) = (k + 1) * n ^ k := by
    rw [bcubeSwitchNodes, countP_cm, sum_map_eq_const _ _ (n ^ k) ?_]
    · simp
    · intro level hlev
      rw [countP_map_const _ _ _ true (by intro a ha; simp)]
      simp
  rw [h1, h2]
  omega

theorem bcube_nodes_mem (k n : Nat) (x : Name × NodeKind)
    (hx : x ∈ (bcubeGraphN k n).nodes) :
    (∃ v, v < n ^ (k + 1) ∧ x = (bcubeHostName n v, NodeKind.host)) ∨
    (∃ L I, L < k + 1 ∧ I < n ^ k ∧ x = (bcubeSwitchName L I, NodeKind.switch)) := by
  rcases List.mem_append.mp hx with h | h
  · left
    rw [bcubeHostNodes] at h
    obtain ⟨v, hv, rfl⟩ := List.mem_map.mp h
    exact ⟨v, List.mem_range.mp hv, rfl⟩
  · right
    rw [bcubeSwitchNodes] at h
    obtain ⟨L, hL, hmem⟩ := mem_cm.mp h
    obtain ⟨I, hI, rfl⟩ := List.mem_map.mp hmem
    exact ⟨L, I, List.mem_range.mp hL, List.mem_range.mp hI, rfl⟩

theorem filter_cm (p : β → Bool) (l : List α) (f : α → List β) :
    (cm l f).filter p = cm l (fun a => (f a).filter p) := by
  induction l with
  | nil => rfl
  | cons x xs ih => simp [cm_cons, List.filter_append, ih]

theorem cm_eq_nil (l : List α) (f : α → List β) (h : ∀ a ∈ l, f a = []) :
    cm l f = [] := by
  induction l with
  | nil => rfl
  | cons x xs ih =>
    rw [cm_cons, h x (List.mem_cons_self x xs), List.nil_append]
    exact ih (fun a ha => h a (List.mem_cons_of_mem x ha))

theorem cm_range_single (c I : Nat) (f : Nat → List β) (hI : I < c)
    (h : ∀ i, i < c → i ≠ I → f i = []) : cm (List.range c) f = f I := by
  induction c with
  | zero => omega
  | succ c ih =>
    rw [List.range_succ, cm_append, cm_cons, cm_nil, List.append_nil]
    by_cases hc : I = c
    · subst hc
      rw [cm_eq_nil _ _ ?_, List.nil_append]
      intro a ha
      simp only [List.mem_range] at ha
      exact h a (by omega) (by omega)
    · rw [ih (by omega) (fun i hi hne => h i (by omega) hne),
        h c (by omega) (fun hh => hc hh.symm), List.append_nil]

/-- The links incident to the switch `(level, i)` are exactly one link to
each of the hosts at positional indices `m, m + arg1, ..., m + (n-1)*arg1`. -/
theorem bcube_switch_links (k n : Nat) (hn : 1 ≤ n) (level i : Nat)
    (hlev : level ≤ k) (hi : i < n ^ k) :
    ((bcubeGraphN k n).links.filter (fun e =>
        e.1 = bcubeSwitchName level i ∨ e.2 = bcubeSwitchName level i)) =
      (List.range n).map (fun j => (bcubeSwitchName level i,
        bcubeHostName n (bcubeM n level i + j * n ^ level))) := by
  show (bcubeLinks k n).filter _ = _
  rw [bcubeLinks, filter_cm]
  rw [cm_range_single (k + 1) level _ (by omega) ?_]
  · rw [bcubeLevelLinks, filter_cm]
    rw [cm_range_single (n ^ k) i _ hi ?_]
    · apply List.filter_eq_self.mpr
      intro e he
      obtain ⟨j, hj, rfl⟩ := List.mem_map.mp he
      simp
    · intro i' hi' hne
      apply List.filter_eq_nil_iff.mpr
      intro e he
      obtain ⟨j, hj, rfl⟩ := List.mem_map.mp he
      simp only [decide_eq_true_eq, Bool.not_eq_true]
      rintro (h1 | h2)
      · exact hne (bcubeSwitchName_inj h1).2
      · exact bcube_sName_ne_hName level i n _ h2.symm
  · intro l' hl' hne
    rw [bcubeLevelLinks, filter_cm]
    apply cm_eq_nil
    intro i' hi'
    apply List.filter_eq_nil_iff.mpr
    intro e he
    obtain ⟨j, hj, rfl⟩ := List.mem_map.mp he
    simp only [decide_eq_true_eq, Bool.not_eq_true]
    rintro (h1 | h2)
    · exact hne (bcubeSwitchName_inj h1).1
    · exact bcube_sName_ne_hName level i n _ h2.symm

theorem bcube_graph_hostPre (k n : Nat) :
    HostPre n (n ^ (k + 1)) (bcubeGraphN k n) :=
  hostPre_appendNodes n (n ^ (k + 1)) ⟨bcubeHostNodes k n, []⟩
    (hostPre_base k n []) (bcubeSwitchNodes k n) (bcubeLinks k n)

theorem bcube_topo_ok (k n : Nat) (hn : 1 ≤ n) :
    bcubeTopo (PyVal.int k) (PyVal.int n) = (bcubeGraphN k n, none) := by
  have hval : bcubeValidate (PyVal.int k) (PyVal.int n) =
      .ok ((k : Int), (n : Int)) := by
    show (if (n : Int) < 1 then
        Except.error (PyErr.valueError "Invalid n parameter. It should be >= 1")
      else if (k : Int) < 0 then
        Except.error (PyErr.valueError "Invalid k parameter. It should be >= 0")
      else Except.ok ((k : Int), (n : Int))) = Except.ok ((k : Int), (n : Int))
    rw [if_neg (by omega), if_neg (by omega)]
  unfold bcubeTopo
  rw [hval]
  show (match bcubeBuild ((k : Int)).toNat ((n : Int)).toNat with
    | .ok g => (g, none)
    | .error e => (Graph.empty, some e)) = _
  rw [Int.toNat_natCast, Int.toNat_natCast, bcubeBuild_ok k n hn]

/-- C1: for every pair of integers `k ≥ 0` and `n ≥ 1`, `BCubeTopo(k, n)`
produces exactly `n^(k+1)` host nodes and `(k+1)*n^k` switch nodes, every
host ends with degree exactly `k+1`, and every switch ends with degree
exactly `n`. -/
theorem claim_C1_bcube_counts_and_degrees (k n : Nat) (hn : 1 ≤ n) :
    bcubeTopo (PyVal.int k) (PyVal.int n) = (bcubeGraphN k n, none) ∧
    (bcubeGraphN k n).kindCount NodeKind.host = n ^ (k + 1) ∧
    (bcubeGraphN k n).kindCount NodeKind.switch = (k + 1) * n ^ k ∧
    (∀ x ∈ (bcubeGraphN k n).nodes, x.2 = NodeKind.host →
      (bcubeGraphN k n).degree x.1 = k + 1) ∧
    (∀ x ∈ (bcubeGraphN k n).nodes, x.2 = NodeKind.switch →
      (bcubeGraphN k n).degree x.1 = n) := by
  refine ⟨bcube_topo_ok k n hn, bcube_host_count k n, bcube_switch_count k n, ?_, ?_⟩
  · intro x hx hkind
    rcases bcube_nodes_mem k n x hx with ⟨v, hv, rfl⟩ | ⟨L, I, hL, hI, rfl⟩
    · exact bcube_host_degree k n hn v hv
    · simp at hkind
  · intro x hx hkind
    rcases bcube_nodes_mem k n x hx with ⟨v, hv, rfl⟩ | ⟨L, I, hL, hI, rfl⟩
    · simp at hkind
    · exact bcube_switch_degree k n hn L I hL hI

theorem claim_C1_bcube_counts_and_degrees_witness :
    bcubeTopo (PyVal.int 1) (PyVal.int 2) = (bcubeGraphN 1 2, none) ∧
    (bcubeGraphN 1 2).kindCount NodeKind.host = 2 ^ (1 + 1) ∧
    (bcubeGraphN 1 2).kindCount NodeKind.switch = (1 + 1) * 2 ^ 1 ∧
    (∀ x ∈ (bcubeGraphN 1 2).nodes, x.2 = NodeKind.host →
      (bcubeGraphN 1 2).degree x.1 = 1 + 1) ∧
    (∀ x ∈ (bcubeGraphN 1 2).nodes, x.2 = NodeKind.switch →
      (bcubeGraphN 1 2).degree x.1 = 2) :=
  claim_C1_bcube_counts_and_degrees 1 2 (by decide)

/-- C3: in `BCubeTopo(k, n)`, for every level `l ≤ k` and switch position
`i < n^k`, with `arg1 = n^l`, `arg2 = n^(l+1)` and
`m = (i mod arg1) + (i div arg1) * arg2`, the switch `(l, i)` is linked to
exactly the `n` nodes whose positional index in the graph's
insertion-ordered node enumeration is `m, m+arg1, ..., m+(n-1)*arg1`. -/
theorem claim_C3_bcube_stride_wiring (k n : Nat) (hn : 1 ≤ n)
    (level i : Nat) (hlev : level ≤ k) (hi : i < n ^ k) :
    bcubeTopo (PyVal.int k) (PyVal.int n) = (bcubeGraphN k n, none) ∧
    ((bcubeGraphN k n).links.filter (fun e =>
        e.1 = bcubeSwitchName level i ∨ e.2 = bcubeSwitchName level i)) =
      (List.range n).map (fun j => (bcubeSwitchName level i,
        bcubeHostName n (bcubeM n level i + j * n ^ level))) ∧
    (∀ j, j < n →
      (bcubeGraphN k n).nodeNames[bcubeM n level i + j * n ^ level]? =
        some (bcubeHostName n (bcubeM n level i + j * n ^ level))) := by
  refine ⟨bcube_topo_ok k n hn, bcube_switch_links k n hn level i hlev hi, ?_⟩
  intro j hj
  exact bcube_graph_hostPre k n _ (bcube_index_lt k n level i j hn hlev hi hj)

theorem claim_C3_bcube_stride_wiring_witness :
    bcubeTopo (PyVal.int 1) (PyVal.int 2) = (bcubeGraphN 1 2, none) ∧
    ((bcubeGraphN 1 2).links.filter (fun e =>
        e.1 = bcubeSwitchName 1 1 ∨ e.2 = bcubeSwitchName 1 1)) =
      (List.range 2).map (fun j => (bcubeSwitchName 1 1,
        bcubeHostName 2 (bcubeM 2 1 1 + j * 2 ^ 1))) ∧
    (∀ j, j < 2 →
      (bcubeGraphN 1 2).nodeNames[bcubeM 2 1 1 + j * 2 ^ 1]? =
        some (bcubeHostName 2 (bcubeM 2 1 1 + j * 2 ^ 1))) :=
  claim_C3_bcube_stride_wiring 1 2 (by decide) 1 1 (by decide) (by decide)

/-- C6: `BCubeTopo` raises `TypeError` when either parameter is not an
integer, `ValueError` when `n < 1`, `ValueError` when `k < 0`, and in every
failing case the error is raised before any node or link is added, leaving
the graph empty. -/
theorem claim_C6_bcube_validation (kv nv : PyVal) :
    ((kv.isInt = false ∨ nv.isInt = false) →
      bcubeTopo kv nv = (Graph.empty,
        some (PyErr.typeError "k and n arguments must be of int type"))) ∧
    (∀ kz nz : Int, kv = PyVal.int kz → nv = PyVal.int nz → nz < 1 →
      bcubeTopo kv nv = (Graph.empty,
        some (PyErr.valueError "Invalid n parameter. It should be >= 1"))) ∧
    (∀ kz nz : Int, kv = PyVal.int kz → nv = PyVal.int nz → 1 ≤ nz → kz < 0 →
      bcubeTopo kv nv = (Graph.empty,
        some (PyErr.valueError "Invalid k parameter. It should be >= 0"))) := by
  refine ⟨?_, ?_, ?_⟩
  · intro h
    rcases kv with kz | t
    · rcases nv with nz | t2
      · rcases h with h | h <;> simp [PyVal.isInt] at h
      · rfl
    · rcases nv with nz | t2 <;> rfl
  · intro kz nz hk hn hlt
    subst hk
    subst hn
    unfold bcubeTopo
    have hval : bcubeValidate (PyVal.int kz) (PyVal.int nz) =
        .error (PyErr.valueError "Invalid n parameter. It should be >= 1") := by
      show (if nz < 1 then _ else _) = _
      rw [if_pos hlt]
    rw [hval]
  · intro kz nz hk hn hge hlt
    subst hk
    subst hn
    unfold bcubeTopo
    have hval : bcubeValidate (PyVal.int kz) (PyVal.int nz) =
        .error (PyErr.valueError "Invalid k parameter. It should be >= 0") := by
      show (if nz < 1 then _
        else if kz < 0 then _
        else Except.ok (kz, nz)) = _
      rw [if_neg (by omega), if_pos hlt]
    rw [hval]

theorem claim_C6_bcube_validation_witness :
    bcubeTopo (PyVal.notInt "str") (PyVal.int 4) = (Graph.empty,
      some (PyErr.typeError "k and n arguments must be of int type")) ∧
    bcubeTopo (PyVal.int 1) (PyVal.int 0) = (Graph.empty,
      some (PyErr.valueError "Invalid n parameter. It should be >= 1")) ∧
    bcubeTopo (PyVal.int (-1)) (PyVal.int 4) = (Graph.empty,
      some (PyErr.valueError "Invalid k parameter. It should be >= 0")) :=
  ⟨(claim_C6_bcube_validation (PyVal.notInt "str") (PyVal.int 4)).1
      (Or.inl (by decide)),
    (claim_C6_bcube_validation (PyVal.int 1) (PyVal.int 0)).2.1 1 0 rfl rfl
      (by decide),
    (claim_C6_bcube_validation (PyVal.int (-1)) (PyVal.int 4)).2.2 (-1) 4 rfl rfl
      (by decide) (by decide)⟩

theorem dcGet_append_lt {l₁ : List α} (l₂ : List α) {i : Nat}
    (h : i < l₁.length) : (l₁ ++ l₂)[i]? = l₁[i]? := by
  rw [List.getElem?_append, if_pos h]

theorem dcGet_append_off (l₁ l₂ : List α) (t : Nat) :
    (l₁ ++ l₂)[l₁.length + t]? = l₂[t]? := by
  rw [List.getElem?_append, if_neg (by omega), Nat.add_sub_cancel_left]

theorem cm_map (l : List α) (f : α → β) (g : β → List γ) :
    cm (l.map f) g = cm l (fun a => g (f a)) := by
  induction l with
  | nil => rfl
  | cons x xs ih => simp [cm_cons, ih]

theorem cm_range_length_const (c L : Nat) (f : Nat → List β)
    (hL : ∀ i < c, (f i).length = L) : (cm (List.range c) f).length = c * L := by
  rw [length_cm, sum_map_eq_const _ _ L
    (fun a ha => hL a (List.mem_range.mp ha)), List.length_range]

theorem cm_range_getElem (c L : Nat) (f : Nat → List β)
    (hL : ∀ i < c, (f i).length = L) (p t : Nat) (hp : p < c) (ht : t < L) :
    (cm (List.range c) f)[p * L + t]? = (f p)[t]? := by
  induction c with
  | zero => omega
  | succ c ih =>
    rw [List.range_succ, cm_append, cm_cons, cm_nil, List.append_nil]
    by_cases hpc : p < c
    · have hlen : (cm (List.range c) f).length = c * L :=
        cm_range_length_const c L f (fun i hi => hL i (by omega))
      have hidx : p * L + t < (cm (List.range c) f).length := by
        rw [hlen]
        have h1 : (p + 1) * L ≤ c * L := Nat.mul_le_mul_right _ (by omega)
        have h2 : p * L + t < (p + 1) * L := by
          have : (p + 1) * L = p * L + L := by ring
          omega
        omega
      rw [dcGet_append_lt _ hidx]
      exact ih (fun i hi => hL i (by omega)) hpc
    · have hpc' : p = c := by omega
      subst hpc'
      have hlen : (cm (List.range p) f).length = p * L :=
        cm_range_length_const p L f (fun i hi => hL i (by omega))
      rw [← hlen, dcGet_append_off]

theorem ft_nodeNames_switches (ls : List Name) (lk : List (Name × Name)) :
    (⟨ls.map (fun x => (x, NodeKind.switch)), lk⟩ : Graph).nodeNames = ls := by
  show (ls.map _).map Prod.fst = ls
  induction ls with
  | nil => rfl
  | cons x xs ih => simpa using ih

theorem ftCorePhase (n : Nat) :
    forRangeP n ftCoreStep ⟨Graph.empty, [], [], [], []⟩ =
      ⟨⟨((List.range n).map ftCoreName).map (fun x => (x, NodeKind.switch)), []⟩,
        (List.range n).map ftCoreName, [], [],
        (List.range n).map ftCoreName⟩ := by
  induction n with
  | zero => rfl
  | succ c ih =>
    rw [forRangeP_succ, ih]
    simp [ftCoreStep, Graph.addSwitch, List.range_succ]

theorem ftAggrAdd_run (ls : List Nat) (st : FTState) :
    forListP ls ftAggrAdd st =
      ⟨⟨st.g.nodes ++ (ls.map ftAggrName).map (fun x => (x, NodeKind.switch)),
          st.g.links⟩,
        st.c, st.a ++ ls.map ftAggrName, st.e, st.s ++ ls.map ftAggrName⟩ := by
  induction ls generalizing st with
  | nil => simp [forListP_nil]
  | cons x xs ih =>
    rw [forListP_cons, ih]
    simp [ftAggrAdd, Graph.addSwitch]

theorem ftEdgeAdd_run (ls : List Nat) (st : FTState) :
    forListP ls ftEdgeAdd st =
      ⟨⟨st.g.nodes ++ (ls.map ftEdgeName).map (fun x => (x, NodeKind.switch)),
          st.g.links⟩,
        st.c, st.a, st.e ++ ls.map ftEdgeName, st.s ++ ls.map ftEdgeName⟩ := by
  induction ls generalizing st with
  | nil => simp [forListP_nil]
  | cons x xs ih =>
    rw [forListP_cons, ih]
    simp [ftEdgeAdd, Graph.addSwitch]

theorem ftLinkIdx_ok (x y : Nat) (u v : Name) (st : FTState)
    (hns : st.g.nodeNames = st.s)
    (hx : st.s[x]? = some u) (hy : st.s[y]? = some v) :
    ftLinkIdx x y st =
      .ok ⟨⟨st.g.nodes, st.g.links ++ [(u, v)]⟩, st.c, st.a, st.e, st.s⟩ := by
  rw [ftLinkIdx, hx, hy]
  have hu : u ∈ st.g.nodeNames := by rw [hns]; exact List.getElem?_mem hx
  have hv : v ∈ st.g.nodeNames := by rw [hns]; exact List.getElem?_mem hy
  have hadd : st.g.addLink u v = .ok ⟨st.g.nodes, st.g.links ++ [(u, v)]⟩ := by
    unfold Graph.addLink
    rw [if_pos ⟨hu, hv⟩]
  show Except.map (fun g => (⟨g, st.c, st.a, st.e, st.s⟩ : FTState))
    (st.g.addLink u v) = _
  rw [hadd]
  rfl

theorem addLink_ok (g : Graph) (x y : Name)
    (hx : x ∈ g.nodeNames) (hy : y ∈ g.nodeNames) :
    g.addLink x y = .ok ⟨g.nodes, g.links ++ [(x, y)]⟩ := by
  unfold Graph.addLink
  rw [if_pos ⟨hx, hy⟩]

theorem xrange2_eq (a m : Nat) :
    xrange2 a (a + m) = (List.range m).map (fun t => a + t) := by
  rw [xrange2, Nat.add_sub_cancel_left]

/-- Pod-inner link loop: `for ee in edge_nodes: addLink(s[aa-1], s[ee-1])`. -/
theorem ftEdgeLinkLoop (ys : List Nat) (x : Nat) (u : Name) (fE : Nat → Name)
    (st : FTState) (hns : st.g.nodeNames = st.s) (hx : st.s[x]? = some u)
    (hys : ∀ y ∈ ys, st.s[y - 1]? = some (fE y)) :
    forListE ys (fun ee st => ftLinkIdx x (ee - 1) st) st =
      .ok ⟨⟨st.g.nodes, st.g.links ++ ys.map (fun y => (u, fE y))⟩,
        st.c, st.a, st.e, st.s⟩ := by
  induction ys generalizing st with
  | nil => simp [forListE_nil]
  | cons y ys ih =>
    rw [forListE_cons, ftLinkIdx_ok x (y - 1) u (fE y) st hns hx
      (hys y (List.mem_cons_self y ys)), ebind_ok]
    rw [ih ⟨⟨st.g.nodes, st.g.links ++ [(u, fE y)]⟩, st.c, st.a, st.e, st.s⟩
      hns hx (fun y2 hy2 => hys y2 (List.mem_cons_of_mem y hy2))]
    simp

/-- Pod bipartite wiring loop: aggregation × edge. -/
theorem ftPodLinkLoop (xs ys : List Nat) (fA fE : Nat → Name) (st : FTState)
    (hns : st.g.nodeNames = st.s)
    (hxs : ∀ a2 ∈ xs, st.s[a2 - 1]? = some (fA a2))
    (hys : ∀ y ∈ ys, st.s[y - 1]? = some (fE y)) :
    forListE xs (fun aa st =>
        forListE ys (fun ee st => ftLinkIdx (aa - 1) (ee - 1) st) st) st =
      .ok ⟨⟨st.g.nodes,
          st.g.links ++ cm xs (fun a2 => ys.map (fun y => (fA a2, fE y)))⟩,
        st.c, st.a, st.e, st.s⟩ := by
  induction xs generalizing st with
  | nil => simp [forListE_nil, cm_nil]
  | cons aa xs ih =>
    rw [forListE_cons, ftEdgeLinkLoop ys (aa - 1) (fA aa) fE st hns
      (hxs aa (List.mem_cons_self aa xs)) hys, ebind_ok]
    rw [ih ⟨⟨st.g.nodes, st.g.links ++ ys.map (fun y => (fA aa, fE y))⟩,
        st.c, st.a, st.e, st.s⟩ hns
      (fun a2 ha2 => hxs a2 (List.mem_cons_of_mem aa ha2)) hys]
    simp [cm_cons]

/-- Core-to-aggregation loop for one core switch. -/
theorem ftCoreLinkStep_run (k r n_core cn : Nat) (u : Name) (fE : Nat → Name)
    (st : FTState) (c : Nat)
    (hns : st.g.nodeNames = st.s) (hx : st.s[cn]? = some u)
    (hys : ∀ p, p < c → st.s[n_core + cn / (k / 2 / r) + k * p]? = some (fE p)) :
    forRangeE c (fun pod st =>
        ftLinkIdx cn (n_core + cn / (k / 2 / r) + k * pod) st) st =
      .ok ⟨⟨st.g.nodes, st.g.links ++ (List.range c).map (fun p => (u, fE p))⟩,
        st.c, st.a, st.e, st.s⟩ := by
  induction c with
  | zero =>
    rw [forRangeE_zero]
    simp
  | succ c ih =>
    rw [forRangeE_succ, ih (fun p hp => hys p (by omega)), ebind_ok]
    rw [ftLinkIdx_ok cn (n_core + cn / (k / 2 / r) + k * c) u (fE c)
      ⟨⟨st.g.nodes, st.g.links ++ (List.range c).map (fun p => (u, fE p))⟩,
        st.c, st.a, st.e, st.s⟩ hns hx (hys c (by omega))]
    simp [List.range_succ]

theorem ftPodAggrNames_len (k r p : Nat) : (ftPodAggrNames k r p).length = k / 2 := by
  simp [ftPodAggrNames]

theorem ftPodEdgeNames_len (k r p : Nat) : (ftPodEdgeNames k r p).length = k / 2 := by
  simp [ftPodEdgeNames]

theorem ftCoreNames_len (k r : Nat) : (ftCoreNames k r).length = ftNCore k r := by
  simp [ftCoreNames]

theorem ftSNamesUpTo_len (k r p : Nat) (hk2 : k / 2 + k / 2 = k) :
    (ftSNamesUpTo k r p).length = ftNCore k r + p * k := by
  rw [ftSNamesUpTo, List.length_append, ftCoreNames_len,
    cm_range_length_const p k _ (fun i hi => by
      rw [List.length_append, ftPodAggrNames_len, ftPodEdgeNames_len]
      omega)]

theorem ftPodStep_run (k r p : Nat) (hk2 : k / 2 + k / 2 = k) :
    ftPodStep k p (ftPodState k r p) = .ok (ftPodState k r (p + 1)) := by
  have hlen : (ftPodState k r p).s.length = ftNCore k r + p * k :=
    ftSNamesUpTo_len k r p hk2
  have hAGL : xrange2 ((ftPodState k r p).s.length + 1)
      ((ftPodState k r p).s.length + 1 + k / 2) =
      (List.range (k / 2)).map (fun t => ftAggrLabel k r p t) := by
    rw [hlen, xrange2_eq]
    apply List.map_congr_left
    intro t ht
    rw [ftAggrLabel]
    omega
  have hEGL : xrange2 ((ftPodState k r p).s.length + 1 + k / 2)
      ((ftPodState k r p).s.length + 1 + k / 2 + k / 2) =
      (List.range (k / 2)).map (fun u => ftEdgeLabel k r p u) := by
    rw [hlen, xrange2_eq]
    apply List.map_congr_left
    intro u hu
    rw [ftEdgeLabel]
    omega
  show forListE (xrange2 ((ftPodState k r p).s.length + 1)
      ((ftPodState k r p).s.length + 1 + k / 2))
    (fun aa st => forListE (xrange2 ((ftPodState k r p).s.length + 1 + k / 2)
        ((ftPodState k r p).s.length + 1 + k / 2 + k / 2))
      (fun ee st => ftLinkIdx (aa - 1) (ee - 1) st) st)
    (forListP (xrange2 ((ftPodState k r p).s.length + 1 + k / 2)
        ((ftPodState k r p).s.length + 1 + k / 2 + k / 2)) ftEdgeAdd
      (forListP (xrange2 ((ftPodState k r p).s.length + 1)
          ((ftPodState k r p).s.length + 1 + k / 2)) ftAggrAdd
        (ftPodState k r p))) = _
  rw [hAGL, hEGL, ftAggrAdd_run, ftEdgeAdd_run]
  rw [ftPodLinkLoop _ _ ftAggrName ftEdgeName _ ?hns ?hxs ?hys]
  case hns =>
    show ((((ftPodState k r p).s.map (fun x => (x, NodeKind.switch)) ++ _) ++ _ :
      List (Name × NodeKind)).map Prod.fst) = _
    rw [← List.map_append, ← List.map_append]
    exact ft_nodeNames_switches _ []
  case hxs =>
    intro aa ha
    obtain ⟨t, ht, rfl⟩ := List.mem_map.mp ha
    have ht' : t < k / 2 := List.mem_range.mp ht
    have hidx : ftAggrLabel k r p t - 1 = (ftPodState k r p).s.length + t := by
      rw [hlen, ftAggrLabel]
      omega
    show ((((ftPodState k r p).s ++ _) ++ _ : List Name))[ftAggrLabel k r p t - 1]? = _
    rw [hidx, List.append_assoc, dcGet_append_off]
    rw [dcGet_append_lt _ (by
      rw [List.length_map, List.length_map, List.length_range]
      exact ht')]
    rw [List.getElem?_map, List.getElem?_map, List.getElem?_range ht']
    rfl
  case hys =>
    intro ee he
    obtain ⟨u, hu, rfl⟩ := List.mem_map.mp he
    have hu' : u < k / 2 := List.mem_range.mp hu
    have hidx : ftEdgeLabel k r p u - 1 =
        (ftPodState k r p).s.length + (k / 2 + u) := by
      rw [hlen, ftEdgeLabel]
      omega
    show ((((ftPodState k r p).s ++ _) ++ _ : List Name))[ftEdgeLabel k r p u - 1]? = _
    rw [hidx, List.append_assoc, dcGet_append_off]
    have hA'len : (((List.range (k / 2)).map
        (fun t => ftAggrLabel k r p t)).map ftAggrName).length = k / 2 := by
      rw [List.length_map, List.length_map, List.length_range]
    rw [show k / 2 + u = (((List.range (k / 2)).map
        (fun t => ftAggrLabel k r p t)).map ftAggrName).length + u from by
      rw [hA'len]]
    rw [dcGet_append_off]
    rw [List.getElem?_map, List.getElem?_map, List.getElem?_range hu']
    rfl
  simp only [ftPodState, ftSNamesUpTo, List.range_succ, cm_append, cm_cons,
    cm_nil, List.append_nil, List.map_append, List.append_assoc, List.map_map,
    cm_map, Function.comp_def, ftPodLinks, ftPodAggrNames, ftPodEdgeNames]

theorem ftPodState_zero (k r : Nat) :
    ftPodState k r 0 =
      ⟨⟨(ftCoreNames k r).map (fun x => (x, NodeKind.switch)), []⟩,
        ftCoreNames k r, [], [], ftCoreNames k r⟩ := by
  simp [ftPodState, ftSNamesUpTo, cm_nil]

theorem ftPodPhase (k r : Nat) (hk2 : k / 2 + k / 2 = k) (c : Nat) (hc : c ≤ k) :
    forRangeE c (ftPodStep k) (ftPodState k r 0) = .ok (ftPodState k r c) := by
  induction c with
  | zero => rw [forRangeE_zero]
  | succ c ih =>
    rw [forRangeE_succ, ih (by omega), ebind_ok]
    exact ftPodStep_run k r c hk2

theorem ftSwitchNames_get_core (k r c : Nat) (hc : c < ftNCore k r) :
    (ftSwitchNames k r)[c]? = some (ftCoreName c) := by
  rw [ftSwitchNames, dcGet_append_lt _ (by rw [ftCoreNames_len]; exact hc)]
  rw [ftCoreNames, List.getElem?_map, List.getElem?_range hc]
  rfl

theorem ftSwitchNames_get_aggr (k r : Nat) (hk2 : k / 2 + k / 2 = k)
    (p t : Nat) (hp : p < k) (ht : t < k / 2) :
    (ftSwitchNames k r)[ftNCore k r + (p * k + t)]? =
      some (ftAggrName (ftAggrLabel k r p t)) := by
  rw [ftSwitchNames, ← ftCoreNames_len k r, dcGet_append_off]
  rw [cm_range_getElem k k _ (fun i hi => by
      rw [List.length_append, ftPodAggrNames_len, ftPodEdgeNames_len]
      omega)
    p t hp (by omega)]
  rw [dcGet_append_lt _ (by rw [ftPodAggrNames_len]; exact ht)]
  rw [ftPodAggrNames, List.getElem?_map, List.getElem?_range ht]
  rfl

theorem ftCoreLinkPhase (k r : Nat) (hk2 : k / 2 + k / 2 = k)
    (hcd : ∀ c, c < ftNCore k r → c / (k / 2 / r) < k / 2)
    (c : Nat) (hc : c ≤ ftNCore k r) :
    forRangeE c (ftCoreLinkStep k r (ftNCore k r)) (ftPodState k r k) =
      .ok ⟨⟨(ftSwitchNames k r).map (fun x => (x, NodeKind.switch)),
          cm (List.range k) (ftPodLinks k r) ++
            cm (List.range c) (fun cn => (List.range k).map (fun p =>
              (ftCoreName cn,
                ftAggrName (ftAggrLabel k r p (cn / (k / 2 / r))))))⟩,
        ftCoreNames k r,
        cm (List.range k) (ftPodAggrNames k r),
        cm (List.range k) (ftPodEdgeNames k r),
        ftSwitchNames k r⟩ := by
  induction c with
  | zero =>
    rw [forRangeE_zero]
    simp only [List.range_zero, cm_nil, List.append_nil]
    rfl
  | succ c ih =>
    rw [forRangeE_succ, ih (by omega), ebind_ok]
    show forRangeE k (fun pod st =>
      ftLinkIdx c (ftNCore k r + c / (k / 2 / r) + k * pod) st) _ = _
    rw [ftCoreLinkStep_run k (r := r) (ftNCore k r) c (ftCoreName c)
      (fun p => ftAggrName (ftAggrLabel k r p (c / (k / 2 / r)))) _ k
      ?hns ?hx ?hys]
    case hns =>
      show ((ftSwitchNames k r).map _).map Prod.fst = _
      exact ft_nodeNames_switches _ []
    case hx => exact ftSwitchNames_get_core k r c (by omega)
    case hys =>
      intro p hp
      show (ftSwitchNames k r)[ftNCore k r + c / (k / 2 / r) + k * p]? = _
      rw [show ftNCore k r + c / (k / 2 / r) + k * p =
        ftNCore k r + (p * k + c / (k / 2 / r)) from by ring]
      exact ftSwitchNames_get_aggr k r hk2 p _ hp (hcd c (by omega))
    simp only [List.range_succ, cm_append, cm_cons, cm_nil, List.append_nil,
      List.append_assoc]

theorem ftHostBody_run (sw : Name) (i cnt : Nat) (st : FTState)
    (hsw : sw ∈ st.g.nodeNames) :
    ftHostBody sw i (st, cnt) =
      .ok (⟨⟨st.g.nodes ++ [(ftHostName cnt, NodeKind.host)],
          st.g.links ++ [(sw, ftHostName cnt)]⟩, st.c, st.a, st.e, st.s⟩,
        cnt + 1) := by
  show Except.map (fun g2 => ((⟨g2, st.c, st.a, st.e, st.s⟩ : FTState), cnt + 1))
      ((st.g.addHost (ftHostName cnt)).addLink sw (ftHostName cnt)) = _
  rw [addLink_ok _ _ _ ?h1 ?h2]
  case h1 =>
    show sw ∈ (st.g.nodes ++ [(ftHostName cnt, NodeKind.host)]).map Prod.fst
    rw [List.map_append]
    exact List.mem_append_left _ hsw
  case h2 =>
    show ftHostName cnt ∈ (st.g.nodes ++ [(ftHostName cnt, NodeKind.host)]).map Prod.fst
    rw [List.map_append]
    exact List.mem_append_right _ (by simp)
  rfl

theorem ftHostInner (sw : Name) (c cnt : Nat) (st : FTState)
    (hsw : sw ∈ st.g.nodeNames) :
    forRangeE c (ftHostBody sw) (st, cnt) =
      .ok (⟨⟨st.g.nodes ++ (List.range c).map
            (fun i2 => (ftHostName (cnt + i2), NodeKind.host)),
          st.g.links ++
            (List.range c).map (fun i2 => (sw, ftHostName (cnt + i2)))⟩,
        st.c, st.a, st.e, st.s⟩, cnt + c) := by
  induction c with
  | zero =>
    rw [forRangeE_zero]
    simp
  | succ c ih =>
    rw [forRangeE_succ, ih, ebind_ok]
    have hsw' : sw ∈ (⟨⟨st.g.nodes ++ (List.range c).map
          (fun i2 => (ftHostName (cnt + i2), NodeKind.host)),
        st.g.links ++ (List.range c).map (fun i2 => (sw, ftHostName (cnt + i2)))⟩,
      st.c, st.a, st.e, st.s⟩ : FTState).g.nodeNames := by
      show sw ∈ (st.g.nodes ++ _).map Prod.fst
      rw [List.map_append]
      exact List.mem_append_left _ hsw
    rw [ftHostBody_run sw c (cnt + c) _ hsw']
    simp [List.range_succ]
    omega

theorem ftHostLoop (k : Nat) (E : List Name) (cnt : Nat) (st : FTState)
    (hmem : ∀ sw ∈ E, sw ∈ st.g.nodeNames) :
    forListE E (ftHostStep k) (st, cnt) =
      .ok (⟨⟨st.g.nodes ++ ftHostsFrom (k / 2) cnt E,
          st.g.links ++ ftHostLinksFrom (k / 2) cnt E⟩,
        st.c, st.a, st.e, st.s⟩, cnt + E.length * (k / 2)) := by
  induction E generalizing st cnt with
  | nil =>
    rw [forListE_nil]
    simp [ftHostsFrom, ftHostLinksFrom]
  | cons sw E ih =>
    rw [forListE_cons]
    show Except.bind (forRangeE (k / 2) (ftHostBody sw) (st, cnt)) _ = _
    rw [ftHostInner sw (k / 2) cnt st (hmem sw (List.mem_cons_self sw E)),
      ebind_ok]
    rw [ih (cnt + k / 2) _ ?hmem2]
    case hmem2 =>
      intro sw2 hsw2
      show sw2 ∈ (st.g.nodes ++ _).map Prod.fst
      rw [List.map_append]
      exact List.mem_append_left _ (hmem sw2 (List.mem_cons_of_mem sw hsw2))
    simp only [ftHostsFrom, ftHostLinksFrom, List.append_assoc, List.length_cons]
    rw [show cnt + k / 2 + E.length * (k / 2) = cnt + (E.length + 1) * (k / 2)
      from by ring]

theorem ftEdgeNames_subset_switches (k r : Nat) (sw : Name)
    (hsw : sw ∈ ftEdgeNames k r) : sw ∈ ftSwitchNames k r := by
  obtain ⟨p, hp, hmem⟩ := mem_cm.mp hsw
  exact List.mem_append_right _
    (mem_cm.mpr ⟨p, hp, List.mem_append_right _ hmem⟩)

/-- For every parameter pair reachable through validation, the FatTree
builder succeeds and produces exactly the closed-form graph. -/
theorem fatTreeBuild_ok (k r : Nat) (hk2 : k / 2 + k / 2 = k)
    (hcd : ∀ c, c < ftNCore k r → c / (k / 2 / r) < k / 2) :
    fatTreeBuild k r = .ok (fatTreeGraphN k r) := by
  show Except.bind (forRangeE k (ftPodStep k)
      (forRangeP (ftNCore k r) ftCoreStep ⟨Graph.empty, [], [], [], []⟩))
    (fun st2 => Except.bind
      (forRangeE (ftNCore k r) (ftCoreLinkStep k r (ftNCore k r)) st2)
      (fun st3 => Except.map (fun stc => stc.1.g)
        (forListE st3.e (ftHostStep k) (st3, 1)))) = _
  rw [ftCorePhase (ftNCore k r),
    show (⟨⟨((List.range (ftNCore k r)).map ftCoreName).map
          (fun x => (x, NodeKind.switch)), []⟩,
        (List.range (ftNCore k r)).map ftCoreName, [], [],
        (List.range (ftNCore k r)).map ftCoreName⟩ : FTState) =
      ftPodState k r 0 from (ftPodState_zero k r).symm,
    ftPodPhase k r hk2 k le_rfl, ebind_ok,
    ftCoreLinkPhase k r hk2 hcd (ftNCore k r) le_rfl, ebind_ok]
  show Except.map (fun stc => stc.1.g)
    (forListE (ftEdgeNames k r) (ftHostStep k)
      (⟨⟨(ftSwitchNames k r).map (fun x => (x, NodeKind.switch)),
          cm (List.range k) (ftPodLinks k r) ++
            cm (List.range (ftNCore k r)) (fun cn => (List.range k).map (fun p =>
              (ftCoreName cn,
                ftAggrName (ftAggrLabel k r p (cn / (k / 2 / r))))))⟩,
        ftCoreNames k r,
        cm (List.range k) (ftPodAggrNames k r),
        cm (List.range k) (ftPodEdgeNames k r),
        ftSwitchNames k r⟩, 1)) = _
  rw [ftHostLoop k (ftEdgeNames k r) 1 _ ?hmem]
  case hmem =>
    intro sw hsw
    show sw ∈ (⟨(ftSwitchNames k r).map (fun x => (x, NodeKind.switch)),
      ([] : List (Name × Name))⟩ : Graph).nodeNames
    rw [ft_nodeNames_switches]
    exact ftEdgeNames_subset_switches k r sw hsw
  rfl

theorem ft_hcd_of_dvd (k r : Nat) (hr : 1 ≤ r) (hdvd : r ∣ k / 2)
    (hh : 1 ≤ k / 2) :
    ∀ c, c < ftNCore k r → c / (k / 2 / r) < k / 2 := by
  intro c hc
  obtain ⟨m, hm⟩ := hdvd
  have hm1 : 1 ≤ m := by
    rcases Nat.eq_zero_or_pos m with h0 | h1
    · rw [h0, Nat.mul_zero] at hm
      omega
    · exact h1
  have hd : k / 2 / r = m := by
    rw [hm, Nat.mul_div_cancel_left _ (by omega : 0 < r)]
  have hnc : ftNCore k r = k / 2 * m := by
    rw [ftNCore, pow_two, Nat.mul_div_assoc _ ⟨m, hm⟩, hd]
  rw [hd]
  apply (Nat.div_lt_iff_lt_mul (by omega : 0 < m)).mpr
  rw [hnc] at hc
  exact hc

theorem fatTreeValidate_ok (k r : Nat) (hk : 2 ≤ k) (hke : k % 2 = 0)
    (hr : 1 ≤ r) (hdvd : r ∣ k / 2) :
    fatTreeValidate (PyVal.int k) (PyVal.int r) = .ok ((k : Int), (r : Int)) := by
  show (if (r : Int) = 0 then Except.error PyErr.zeroDivisionError
    else if (Int.fdiv (k : Int) 2).fmod (r : Int) ≠ 0 then
      Except.error (PyErr.valueError "k/2 must be divided exactly by r")
    else if (k : Int) < 1 ∨ Int.fmod (k : Int) 2 = 1 then
      Except.error (PyErr.valueError "k must be a positive even integer")
    else Except.ok ((k : Int), (r : Int))) = _
  have hcast : (Int.fdiv (k : Int) 2).fmod (r : Int) =
      ((k / 2 % r : Nat) : Int) := by
    rw [Int.fdiv_eq_ediv _ (by omega), Int.fmod_eq_emod _ (by omega)]
    push_cast
    rfl
  have hmod : k / 2 % r = 0 := by
    obtain ⟨m, hm⟩ := hdvd
    rw [hm, Nat.mul_mod_right]
  rw [if_neg (by omega : ¬((r : Int) = 0))]
  rw [if_neg (by rw [hcast, hmod]; simp)]
  rw [if_neg ?hkr]
  case hkr =>
    rw [Int.fmod_eq_emod _ (by omega)]
    omega

/-- For every valid parameter pair (`k` even and positive, `r ≥ 1` dividing
`k/2`), `FatTreeTopo(k, r)` succeeds with the closed-form graph. -/
theorem fatTree_topo_ok (k r : Nat) (hk : 2 ≤ k) (hke : k % 2 = 0)
    (hr : 1 ≤ r) (hdvd : r ∣ k / 2) :
    fatTreeTopo (PyVal.int k) (PyVal.int r) = (fatTreeGraphN k r, none) := by
  unfold fatTreeTopo
  rw [fatTreeValidate_ok k r hk hke hr hdvd]
  show (match fatTreeBuild ((k : Int)).toNat ((r : Int)).toNat with
    | .ok g => (g, none)
    | .error e => (Graph.empty, some e)) = _
  rw [Int.toNat_natCast, Int.toNat_natCast,
    fatTreeBuild_ok k r (by omega)
      (ft_hcd_of_dvd k r hr hdvd (by omega))]

theorem ft_fmt1_tag_ne {t1 t2 : String} (a b : Nat) (h : t1 ≠ t2) :
    Name.fmt1 t1 a ≠ Name.fmt1 t2 b := by
  intro hh
  injection hh with h1 h2
  exact h h1

theorem ft_fmt1_inj {t : String} {a b : Nat} (h : Name.fmt1 t a = Name.fmt1 t b) :
    a = b := by
  injection h

theorem euclid_unique {k p t p' t' : Nat} (ht : t < k) (ht' : t' < k)
    (h : p * k + t = p' * k + t') : p = p' ∧ t = t' := by
  have hk : 0 < k := by omega
  have h1 : (p * k + t) / k = p := by
    rw [Nat.add_comm, Nat.add_mul_div_right _ _ hk, Nat.div_eq_of_lt ht,
      Nat.zero_add]
  have h2 : (p' * k + t') / k = p' := by
    rw [Nat.add_comm, Nat.add_mul_div_right _ _ hk, Nat.div_eq_of_lt ht',
      Nat.zero_add]
  have h3 : (p * k + t) % k = t := by
    rw [Nat.add_comm, Nat.add_mul_mod_self_right, Nat.mod_eq_of_lt ht]
  have h4 : (p' * k + t') % k = t' := by
    rw [Nat.add_comm, Nat.add_mul_mod_self_right, Nat.mod_eq_of_lt ht']
  rw [h] at h1 h3
  exact ⟨h1.symm.trans h2, h3.symm.trans h4⟩

theorem ftAggrLabel_inj (k r : Nat) {p t p' t' : Nat}
    (ht : t < k) (ht' : t' < k)
    (h : ftAggrLabel k r p t = ftAggrLabel k r p' t') : p = p' ∧ t = t' := by
  apply euclid_unique ht ht'
  rw [ftAggrLabel, ftAggrLabel] at h
  omega

theorem ftEdgeLabel_inj (k r : Nat) (hk2 : k / 2 + k / 2 = k) {p u p' u' : Nat}
    (hu : u < k / 2) (hu' : u' < k / 2)
    (h : ftEdgeLabel k r p u = ftEdgeLabel k r p' u') : p = p' ∧ u = u' := by
  have h2 : p * k + (k / 2 + u) = p' * k + (k / 2 + u') := by
    rw [ftEdgeLabel, ftEdgeLabel] at h
    omega
  have := euclid_unique (k := k) (by omega) (by omega) h2
  exact ⟨this.1, by omega⟩

theorem ftHostsFrom_mem {h cnt : Nat} {E : List Name} {x : Name × NodeKind}
    (hx : x ∈ ftHostsFrom h cnt E) : ∃ c2, x = (ftHostName c2, NodeKind.host) := by
  induction E generalizing cnt with
  | nil => cases hx
  | cons sw E ih =>
    rw [ftHostsFrom] at hx
    rcases List.mem_append.mp hx with h1 | h2
    · obtain ⟨i2, hi2, rfl⟩ := List.mem_map.mp h1
      exact ⟨cnt + i2, rfl⟩
    · exact ih h2

theorem fatTree_nodes_mem (k r : Nat) (x : Name × NodeKind)
    (hx : x ∈ (fatTreeGraphN k r).nodes) :
    (∃ c2, c2 < ftNCore k r ∧ x = (ftCoreName c2, NodeKind.switch)) ∨
    (∃ p, p < k ∧ ∃ t, t < k / 2 ∧
      x = (ftAggrName (ftAggrLabel k r p t), NodeKind.switch)) ∨
    (∃ p, p < k ∧ ∃ u, u < k / 2 ∧
      x = (ftEdgeName (ftEdgeLabel k r p u), NodeKind.switch)) ∨
    (∃ c2, x = (ftHostName c2, NodeKind.host)) := by
  rcases List.mem_append.mp hx with hs | hh
  · rw [ftSwitchNodes] at hs
    obtain ⟨nm, hnm, rfl⟩ := List.mem_map.mp hs
    rw [ftSwitchNames] at hnm
    rcases List.mem_append.mp hnm with hc | hpods
    · left
      rw [ftCoreNames] at hc
      obtain ⟨i, hi, rfl⟩ := List.mem_map.mp hc
      exact ⟨i, List.mem_range.mp hi, rfl⟩
    · obtain ⟨p, hp, hmem⟩ := mem_cm.mp hpods
      rcases List.mem_append.mp hmem with ha | he
      · right; left
        rw [ftPodAggrNames] at ha
        obtain ⟨t, htm, rfl⟩ := List.mem_map.mp ha
        exact ⟨p, List.mem_range.mp hp, t, List.mem_range.mp htm, rfl⟩
      · right; right; left
        rw [ftPodEdgeNames] at he
        obtain ⟨u, hum, rfl⟩ := List.mem_map.mp he
        exact ⟨p, List.mem_range.mp hp, u, List.mem_range.mp hum, rfl⟩
  · right; right; right
    exact ftHostsFrom_mem hh

theorem ftHostsFrom_len (h cnt : Nat) (E : List Name) :
    (ftHostsFrom h cnt E).length = E.length * h := by
  induction E generalizing cnt with
  | nil => simp [ftHostsFrom]
  | cons sw E ih =>
    rw [ftHostsFrom, List.length_append, List.length_map, List.length_range,
      ih (cnt + h), List.length_cons]
    ring

theorem ftEdgeNames_len (k r : Nat) :
    (ftEdgeNames k r).length = k * (k / 2) :=
  cm_range_length_const k (k / 2) _ (fun i _ => ftPodEdgeNames_len k r i)

theorem ftHostsFrom_countP_zero (h cnt : Nat) (E : List Name)
    (q : Name × NodeKind → Bool)
    (hq : ∀ c2, q (ftHostName c2, NodeKind.host) = false) :
    (ftHostsFrom h cnt E).countP q = 0 := by
  apply List.countP_eq_zero.mpr
  intro a ha
  obtain ⟨c2, rfl⟩ := ftHostsFrom_mem ha
  simp [hq c2]

theorem fatTree_tagCount_c (k r : Nat) :
    (fatTreeGraphN k r).switchTagCount "c" = ftNCore k r := by
  show ((ftSwitchNodes k r ++ ftHostNodes k r).countP _) = _
  rw [List.countP_append, ftHostNodes,
    ftHostsFrom_countP_zero _ _ _ _ (fun c2 => by simp [ftHostName, Name.tag]),
    Nat.add_zero]
  rw [ftSwitchNodes, List.countP_map, ftSwitchNames, List.countP_append]
  have h1 : (ftCoreNames k r).countP
      ((fun x => decide (x.2 = NodeKind.switch ∧ x.1.tag = "c")) ∘
        (fun x => (x, NodeKind.switch))) = ftNCore k r := by
    rw [ftCoreNames, ← List.countP_map, countP_map_const _ _ _ true ?_]
    · simp
    · intro a ha
      obtain ⟨i, hi, rfl⟩ := List.mem_map.mp ha
      simp [ftCoreName, Name.tag]
  have h2 : (cm (List.range k)
      (fun p => ftPodAggrNames k r p ++ ftPodEdgeNames k r p)).countP
      ((fun x => decide (x.2 = NodeKind.switch ∧ x.1.tag = "c")) ∘
        (fun x => (x, NodeKind.switch))) = 0 := by
    rw [countP_cm, sum_map_eq_const _ _ 0 ?_, Nat.mul_zero]
    intro p _
    rw [List.countP_append, ftPodAggrNames, ftPodEdgeNames,
      ← List.countP_map, ← List.countP_map]
    rw [countP_map_const _ _ _ false ?ha, countP_map_const _ _ _ false ?he]
    case ha =>
      intro a ha2
      obtain ⟨i, hi, rfl⟩ := List.mem_map.mp ha2
      simp [ftAggrName, Name.tag]
    case he =>
      intro a ha2
      obtain ⟨i, hi, rfl⟩ := List.mem_map.mp ha2
      simp [ftEdgeName, Name.tag]
    simp
  rw [h1, h2]
  omega

theorem fatTree_tagCount_a (k r : Nat) :
    (fatTreeGraphN k r).switchTagCount "a" = k * (k / 2) := by
  show ((ftSwitchNodes k r ++ ftHostNodes k r).countP _) = _
  rw [List.countP_append, ftHostNodes,
    ftHostsFrom_countP_zero _ _ _ _ (fun c2 => by simp [ftHostName, Name.tag]),
    Nat.add_zero]
  rw [ftSwitchNodes, List.countP_map, ftSwitchNames, List.countP_append]
  have h1 : (ftCoreNames k r).countP
      ((fun x => decide (x.2 = NodeKind.switch ∧ x.1.tag = "a")) ∘
        (fun x => (x, NodeKind.switch))) = 0 := by
    rw [ftCoreNames, ← List.countP_map, countP_map_const _ _ _ false ?_]
    · simp
    · intro a ha
      obtain ⟨i, hi, rfl⟩ := List.mem_map.mp ha
      simp [ftCoreName, Name.tag]
  have h2 : (cm (List.range k)
      (fun p => ftPodAggrNames k r p ++ ftPodEdgeNames k r p)).countP
      ((fun x => decide (x.2 = NodeKind.switch ∧ x.1.tag = "a")) ∘
        (fun x => (x, NodeKind.switch))) = k * (k / 2) := by
    rw [countP_cm, sum_map_eq_const _ _ (k / 2) ?_]
    · simp
    · intro p _
      rw [List.countP_append, ftPodAggrNames, ftPodEdgeNames,
        ← List.countP_map, ← List.countP_map]
      rw [countP_map_const _ _ _ true ?ha, countP_map_const _ _ _ false ?he]
      case ha =>
        intro a ha2
        obtain ⟨i, hi, rfl⟩ := List.mem_map.mp ha2
        simp [ftAggrName, Name.tag]
      case he =>
        intro a ha2
        obtain ⟨i, hi, rfl⟩ := List.mem_map.mp ha2
        simp [ftEdgeName, Name.tag]
      simp
  rw [h1, h2]
  omega

theorem fatTree_tagCount_e (k r : Nat) :
    (fatTreeGraphN k r).switchTagCount "e" = k * (k / 2) := by
  show ((ftSwitchNodes k r ++ ftHostNodes k r).countP _) = _
  rw [List.countP_append, ftHostNodes,
    ftHostsFrom_countP_zero _ _ _ _ (fun c2 => by simp [ftHostName, Name.tag]),
    Nat.add_zero]
  rw [ftSwitchNodes, List.countP_map, ftSwitchNames, List.countP_append]
  have h1 : (ftCoreNames k r).countP
      ((fun x => decide (x.2 = NodeKind.switch ∧ x.1.tag = "e")) ∘
        (fun x => (x, NodeKind.switch))) = 0 := by
    rw [ftCoreNames, ← List.countP_map, countP_map_const _ _ _ false ?_]
    · simp
    · intro a ha
      obtain ⟨i, hi, rfl⟩ := List.mem_map.mp ha
      simp [ftCoreName, Name.tag]
  have h2 : (cm (List.range k)
      (fun p => ftPodAggrNames k r p ++ ftPodEdgeNames k r p)).countP
      ((fun x => decide (x.2 = NodeKind.switch ∧ x.1.tag = "e")) ∘
        (fun x => (x, NodeKind.switch))) = k * (k / 2) := by
    rw [countP_cm, sum_map_eq_const _ _ (k / 2) ?_]
    · simp
    · intro p _
      rw [List.countP_append, ftPodAggrNames, ftPodEdgeNames,
        ← List.countP_map, ← List.countP_map]
      rw [countP_map_const _ _ _ false ?ha, countP_map_const _ _ _ true ?he]
      case ha =>
        intro a ha2
        obtain ⟨i, hi, rfl⟩ := List.mem_map.mp ha2
        simp [ftAggrName, Name.tag]
      case he =>
        intro a ha2
        obtain ⟨i, hi, rfl⟩ := List.mem_map.mp ha2
        simp [ftEdgeName, Name.tag]
      simp
  rw [h1, h2]
  omega

theorem fatTree_host_count (k r : Nat) :
    (fatTreeGraphN k r).kindCount NodeKind.host = k * (k / 2) * (k / 2) := by
  show ((ftSwitchNodes k r ++ ftHostNodes k r).countP _) = _
  rw [List.countP_append]
  have h1 : (ftSwitchNodes k r).countP (fun x => x.2 = NodeKind.host) = 0 := by
    rw [ftSwitchNodes, countP_map_const _ _ _ false (fun a _ => by simp)]
    simp
  have h2 : (ftHostNodes k r).countP (fun x => x.2 = NodeKind.host) =
      k * (k / 2) * (k / 2) := by
    rw [ftHostNodes]
    have hall : ∀ a ∈ ftHostsFrom (k / 2) 1 (ftEdgeNames k r),
        (fun x => decide (x.2 = NodeKind.host)) a = true := by
      intro a ha
      obtain ⟨c2, rfl⟩ := ftHostsFrom_mem ha
      simp
    rw [List.countP_eq_length.mpr hall, ftHostsFrom_len, ftEdgeNames_len]
  rw [h1, h2]
  omega

theorem ft_podLinks_count_by_edge (k r : Nat) (p u : Nat) (hp : p < k)
    (hu : u < k / 2) (q : Name × Name → Bool)
    (hq : ∀ p2 t2 u2, p2 < k → t2 < k / 2 → u2 < k / 2 →
      q (ftAggrName (ftAggrLabel k r p2 t2),
          ftEdgeName (ftEdgeLabel k r p2 u2)) =
        decide (p2 = p ∧ u2 = u)) :
    (cm (List.range k) (ftPodLinks k r)).countP q = k / 2 := by
  rw [countP_cm]
  have hpod : ∀ p2 ∈ List.range k,
      (ftPodLinks k r p2).countP q = if p2 = p then k / 2 else 0 := by
    intro p2 hp2
    rw [ftPodLinks, countP_cm]
    have hinner : ∀ t2 ∈ List.range (k / 2),
        ((List.range (k / 2)).map (fun u2 =>
          (ftAggrName (ftAggrLabel k r p2 t2),
            ftEdgeName (ftEdgeLabel k r p2 u2)))).countP q =
        if p2 = p then 1 else 0 := by
      intro t2 ht2
      rw [List.countP_map]
      by_cases hpp : p2 = p
      · subst hpp
        rw [if_pos rfl]
        have hpt : ∀ u2 ∈ List.range (k / 2),
            (q ∘ fun u2 => (ftAggrName (ftAggrLabel k r p2 t2),
              ftEdgeName (ftEdgeLabel k r p2 u2))) u2 = true ↔
            (fun x => decide (x = u)) u2 = true := by
          intro u2 hu2
          simp only [Function.comp_apply]
          rw [hq p2 t2 u2 (List.mem_range.mp hp2) (List.mem_range.mp ht2)
            (List.mem_range.mp hu2)]
          simp
        rw [List.countP_congr hpt]
        exact countP_eq_one_of_nodup_mem (List.nodup_range _)
          (List.mem_range.mpr hu)
      · rw [if_neg hpp]
        apply List.countP_eq_zero.mpr
        intro u2 hu2
        simp only [Function.comp_apply]
        rw [hq p2 t2 u2 (List.mem_range.mp hp2) (List.mem_range.mp ht2)
          (List.mem_range.mp hu2)]
        simp [hpp]
    rw [List.map_congr_left hinner]
    by_cases hpp : p2 = p
    · subst hpp
      rw [sum_map_eq_const _ _ 1 (fun a _ => by simp), List.length_range]
      simp
    · rw [sum_map_eq_const _ _ 0 (fun a _ => by simp [hpp]), Nat.mul_zero]
      simp [hpp]
  rw [List.map_congr_left hpod]
  exact sum_map_indicator k p (k / 2) hp

theorem ft_podLinks_count_by_aggr (k r : Nat) (p t : Nat) (hp : p < k)
    (ht : t < k / 2) (q : Name × Name → Bool)
    (hq : ∀ p2 t2 u2, p2 < k → t2 < k / 2 → u2 < k / 2 →
      q (ftAggrName (ftAggrLabel k r p2 t2),
          ftEdgeName (ftEdgeLabel k r p2 u2)) =
        decide (p2 = p ∧ t2 = t)) :
    (cm (List.range k) (ftPodLinks k r)).countP q = k / 2 := by
  rw [countP_cm]
  have hpod : ∀ p2 ∈ List.range k,
      (ftPodLinks k r p2).countP q = if p2 = p then k / 2 else 0 := by
    intro p2 hp2
    rw [ftPodLinks, countP_cm]
    have hinner : ∀ t2 ∈ List.range (k / 2),
        ((List.range (k / 2)).map (fun u2 =>
          (ftAggrName (ftAggrLabel k r p2 t2),
            ftEdgeName (ftEdgeLabel k r p2 u2)))).countP q =
        if p2 = p ∧ t2 = t then k / 2 else 0 := by
      intro t2 ht2
      rw [countP_map_const _ _ _ (decide (p2 = p ∧ t2 = t)) (fun u2 hu2 =>
        hq p2 t2 u2 (List.mem_range.mp hp2) (List.mem_range.mp ht2)
          (List.mem_range.mp hu2))]
      rw [List.length_range]
      by_cases hc : p2 = p ∧ t2 = t
      · rw [if_pos hc, if_pos (by simpa using hc)]
      · rw [if_neg hc, if_neg (by simpa using hc)]
    rw [List.map_congr_left hinner]
    by_cases hpp : p2 = p
    · subst hpp
      rw [if_pos rfl]
      have hsimp : ∀ t2 ∈ List.range (k / 2),
          (if p2 = p2 ∧ t2 = t then k / 2 else 0) =
            (if t2 = t then k / 2 else 0) := by
        intro t2 _
        by_cases hc : t2 = t <;> simp [hc]
      rw [List.map_congr_left hsimp]
      exact sum_map_indicator _ _ _ ht
    · rw [if_neg hpp, sum_map_eq_const _ _ 0
        (fun a _ => by simp [hpp]), Nat.mul_zero]
  rw [List.map_congr_left hpod]
  exact sum_map_indicator k p (k / 2) hp

theorem ft_podLinks_count_zero (k r : Nat) (q : Name × Name → Bool)
    (hq : ∀ p2 t2 u2, p2 < k → t2 < k / 2 → u2 < k / 2 →
      q (ftAggrName (ftAggrLabel k r p2 t2),
          ftEdgeName (ftEdgeLabel k r p2 u2)) = false) :
    (cm (List.range k) (ftPodLinks k r)).countP q = 0 := by
  apply List.countP_eq_zero.mpr
  intro e he
  obtain ⟨p2, hp2, hmem⟩ := mem_cm.mp he
  rw [ftPodLinks] at hmem
  obtain ⟨t2, ht2, hmem2⟩ := mem_cm.mp hmem
  obtain ⟨u2, hu2, rfl⟩ := List.mem_map.mp hmem2
  simp [hq p2 t2 u2 (List.mem_range.mp hp2) (List.mem_range.mp ht2)
    (List.mem_range.mp hu2)]

theorem ft_coreLinks_count_zero (k r : Nat) (q : Name × Name → Bool)
    (hq : ∀ c2 p2, c2 < ftNCore k r → p2 < k →
      q (ftCoreName c2,
          ftAggrName (ftAggrLabel k r p2 (c2 / (k / 2 / r)))) = false) :
    (ftCoreLinks k r).countP q = 0 := by
  apply List.countP_eq_zero.mpr
  intro e he
  rw [ftCoreLinks] at he
  obtain ⟨c2, hc2, hmem⟩ := mem_cm.mp he
  obtain ⟨p2, hp2, rfl⟩ := List.mem_map.mp hmem
  simp [hq c2 p2 (List.mem_range.mp hc2) (List.mem_range.mp hp2)]

theorem ftHostLinksFrom_count_by_sw (h cnt : Nat) (E : List Name) (x : Name)
    (q : Name × Name → Bool) (hq : ∀ sw c2, q (sw, ftHostName c2) = decide (sw = x)) :
    (ftHostLinksFrom h cnt E).countP q = E.countP (fun sw => sw = x) * h := by
  induction E generalizing cnt with
  | nil => simp [ftHostLinksFrom]
  | cons sw E ih =>
    rw [ftHostLinksFrom, List.countP_append, ih (cnt + h),
      countP_map_const _ _ _ (decide (sw = x)) (fun a _ => hq sw (cnt + a)),
      List.length_range, List.countP_cons]
    by_cases hsx : sw = x
    · subst hsx
      rw [if_pos (by simp), if_pos (by simp)]
      ring
    · rw [if_neg (by simp [hsx]), if_neg (by simp [hsx])]
      ring

theorem ftHostLinksFrom_mem {h cnt : Nat} {E : List Name} {e : Name × Name}
    (he : e ∈ ftHostLinksFrom h cnt E) :
    ∃ sw, sw ∈ E ∧ ∃ c2, e = (sw, ftHostName c2) := by
  induction E generalizing cnt with
  | nil => cases he
  | cons sw E ih =>
    rw [ftHostLinksFrom] at he
    rcases List.mem_append.mp he with h1 | h2
    · obtain ⟨i2, _, rfl⟩ := List.mem_map.mp h1
      exact ⟨sw, List.mem_cons_self sw E, cnt + i2, rfl⟩
    · obtain ⟨sw2, hsw2, c2, rfl⟩ := ih h2
      exact ⟨sw2, List.mem_cons_of_mem sw hsw2, c2, rfl⟩

theorem ftHostLinksFrom_count_zero (h cnt : Nat) (E : List Name)
    (q : Name × Name → Bool)
    (hq : ∀ sw c2, sw ∈ E → q (sw, ftHostName c2) = false) :
    (ftHostLinksFrom h cnt E).countP q = 0 := by
  apply List.countP_eq_zero.mpr
  intro e he
  obtain ⟨sw, hsw, c2, rfl⟩ := ftHostLinksFrom_mem he
  simp [hq sw c2 hsw]

theorem ftEdgeNames_countP_one (k r : Nat) (hk2 : k / 2 + k / 2 = k)
    (p u : Nat) (hp : p < k) (hu : u < k / 2) :
    (ftEdgeNames k r).countP
      (fun sw => sw = ftEdgeName (ftEdgeLabel k r p u)) = 1 := by
  rw [ftEdgeNames, countP_cm]
  have hpod : ∀ p2 ∈ List.range k,
      (ftPodEdgeNames k r p2).countP
        (fun sw => sw = ftEdgeName (ftEdgeLabel k r p u)) =
      if p2 = p then 1 else 0 := by
    intro p2 hp2
    rw [ftPodEdgeNames, List.countP_map]
    by_cases hpp : p2 = p
    · subst hpp
      rw [if_pos rfl]
      have hpt : ∀ u2 ∈ List.range (k / 2),
          ((fun sw => decide (sw = ftEdgeName (ftEdgeLabel k r p2 u))) ∘
            fun u2 => ftEdgeName (ftEdgeLabel k r p2 u2)) u2 = true ↔
          (fun x => decide (x = u)) u2 = true := by
        intro u2 hu2
        simp only [Function.comp_apply, decide_eq_true_eq]
        constructor
        · intro h
          exact (ftEdgeLabel_inj k r hk2 (List.mem_range.mp hu2) hu
            (ft_fmt1_inj h)).2
        · rintro rfl
          rfl
      rw [List.countP_congr hpt]
      exact countP_eq_one_of_nodup_mem (List.nodup_range _)
        (List.mem_range.mpr hu)
    · rw [if_neg hpp]
      apply List.countP_eq_zero.mpr
      intro u2 hu2
      simp only [Function.comp_apply, decide_eq_true_eq]
      intro h
      exact hpp (ftEdgeLabel_inj k r hk2 (List.mem_range.mp hu2) hu
        (ft_fmt1_inj h)).1
  rw [List.map_congr_left hpod]
  exact sum_map_indicator k p 1 hp

theorem ftCoreName_tag (i : Nat) : (ftCoreName i).tag = "c" := rfl

theorem ftAggrName_tag (i : Nat) : (ftAggrName i).tag = "a" := rfl

theorem ftEdgeName_tag (i : Nat) : (ftEdgeName i).tag = "e" := rfl

theorem ftHostName_tag (i : Nat) : (ftHostName i).tag = "h" := rfl

theorem ft_edge_degrees (k r : Nat) (hk2 : k / 2 + k / 2 = k) (p u : Nat)
    (hp : p < k) (hu : u < k / 2) :
    (fatTreeGraphN k r).degree (ftEdgeName (ftEdgeLabel k r p u)) = k ∧
    (fatTreeGraphN k r).tagDegree (ftEdgeName (ftEdgeLabel k r p u)) "a" =
      k / 2 ∧
    (fatTreeGraphN k r).tagDegree (ftEdgeName (ftEdgeLabel k r p u)) "h" =
      k / 2 := by
  refine ⟨?_, ?_, ?_⟩
  · show ((cm (List.range k) (ftPodLinks k r) ++ ftCoreLinks k r ++
      ftHostLinks k r).countP _) = k
    rw [List.countP_append, List.countP_append]
    rw [ft_podLinks_count_by_edge k r p u hp hu _ ?hq1,
      ft_coreLinks_count_zero k r _ ?hq2,
      ftHostLinks, ftHostLinksFrom_count_by_sw _ _ _
        (ftEdgeName (ftEdgeLabel k r p u)) _ ?hq3,
      ftEdgeNames_countP_one k r hk2 p u hp hu]
    case hq1 =>
      intro p2 t2 u2 hp2 ht2 hu2
      simp only [decide_eq_decide]
      constructor
      · rintro (h1 | h2)
        · exact absurd h1 (ft_fmt1_tag_ne _ _ (by decide))
        · exact ftEdgeLabel_inj k r hk2 hu2 hu (ft_fmt1_inj h2)
      · rintro ⟨rfl, rfl⟩
        exact Or.inr rfl
    case hq2 =>
      intro c2 p2 hc2 hp2
      simp only [decide_eq_false_iff_not]
      rintro (h1 | h2)
      · exact absurd h1 (ft_fmt1_tag_ne _ _ (by decide))
      · exact absurd h2 (ft_fmt1_tag_ne _ _ (by decide))
    case hq3 =>
      intro sw c2
      simp only [decide_eq_decide]
      constructor
      · rintro (h1 | h2)
        · exact h1
        · exact absurd h2 (ft_fmt1_tag_ne _ _ (by decide))
      · intro h
        exact Or.inl h
    omega
  · show ((cm (List.range k) (ftPodLinks k r) ++ ftCoreLinks k r ++
      ftHostLinks k r).countP _) = k / 2
    rw [List.countP_append, List.countP_append]
    rw [ft_podLinks_count_by_edge k r p u hp hu _ ?hq1,
      ft_coreLinks_count_zero k r _ ?hq2,
      ftHostLinks, ftHostLinksFrom_count_zero _ _ _ _ ?hq3]
    case hq1 =>
      intro p2 t2 u2 hp2 ht2 hu2
      simp only [decide_eq_decide]
      constructor
      · rintro (⟨h1, _⟩ | ⟨h2, _⟩)
        · exact absurd h1 (ft_fmt1_tag_ne _ _ (by decide))
        · exact ftEdgeLabel_inj k r hk2 hu2 hu (ft_fmt1_inj h2)
      · rintro ⟨rfl, rfl⟩
        exact Or.inr ⟨rfl, rfl⟩
    case hq2 =>
      intro c2 p2 hc2 hp2
      simp only [decide_eq_false_iff_not]
      rintro (⟨h1, _⟩ | ⟨h2, _⟩)
      · exact absurd h1 (ft_fmt1_tag_ne _ _ (by decide))
      · exact absurd h2 (ft_fmt1_tag_ne _ _ (by decide))
    case hq3 =>
      intro sw c2 hsw
      simp only [decide_eq_false_iff_not]
      rintro (⟨_, h1⟩ | ⟨h2, _⟩)
      · exact absurd h1 (by rw [ftHostName_tag]; decide)
      · exact absurd h2 (ft_fmt1_tag_ne _ _ (by decide))
    omega
  · show ((cm (List.range k) (ftPodLinks k r) ++ ftCoreLinks k r ++
      ftHostLinks k r).countP _) = k / 2
    rw [List.countP_append, List.countP_append]
    rw [ft_podLinks_count_zero k r _ ?hq1,
      ft_coreLinks_count_zero k r _ ?hq2,
      ftHostLinks, ftHostLinksFrom_count_by_sw _ _ _
        (ftEdgeName (ftEdgeLabel k r p u)) _ ?hq3,
      ftEdgeNames_countP_one k r hk2 p u hp hu]
    case hq1 =>
      intro p2 t2 u2 hp2 ht2 hu2
      simp only [decide_eq_false_iff_not]
      rintro (⟨_, h1⟩ | ⟨_, h2⟩)
      · exact absurd h1 (by rw [ftEdgeName_tag]; decide)
      · exact absurd h2 (by rw [ftAggrName_tag]; decide)
    case hq2 =>
      intro c2 p2 hc2 hp2
      simp only [decide_eq_false_iff_not]
      rintro (⟨_, h1⟩ | ⟨_, h2⟩)
      · exact absurd h1 (by rw [ftAggrName_tag]; decide)
      · exact absurd h2 (by rw [ftCoreName_tag]; decide)
    case hq3 =>
      intro sw c2
      simp only [decide_eq_decide]
      constructor
      · rintro (⟨h1, _⟩ | ⟨h2, _⟩)
        · exact h1
        · exact absurd h2 (ft_fmt1_tag_ne _ _ (by decide))
      · intro h
        exact Or.inl ⟨h, rfl⟩
    omega

theorem ft_aggr_edge_degree (k r : Nat) (hk2 : k / 2 + k / 2 = k) (p t : Nat)
    (hp : p < k) (ht : t < k / 2) :
    (fatTreeGraphN k r).tagDegree (ftAggrName (ftAggrLabel k r p t)) "e" =
      k / 2 := by
  show ((cm (List.range k) (ftPodLinks k r) ++ ftCoreLinks k r ++
    ftHostLinks k r).countP _) = k / 2
  rw [List.countP_append, List.countP_append]
  rw [ft_podLinks_count_by_aggr k r p t hp ht _ ?hq1,
    ft_coreLinks_count_zero k r _ ?hq2,
    ftHostLinks, ftHostLinksFrom_count_zero _ _ _ _ ?hq3]
  case hq1 =>
    intro p2 t2 u2 hp2 ht2 hu2
    simp only [decide_eq_decide]
    constructor
    · rintro (⟨h1, _⟩ | ⟨h2, _⟩)
      · exact ftAggrLabel_inj k r (by omega) (by omega) (ft_fmt1_inj h1)
      · exact absurd h2 (ft_fmt1_tag_ne _ _ (by decide))
    · rintro ⟨rfl, rfl⟩
      exact Or.inl ⟨rfl, rfl⟩
  case hq2 =>
    intro c2 p2 hc2 hp2
    simp only [decide_eq_false_iff_not]
    rintro (⟨h1, _⟩ | ⟨_, h2⟩)
    · exact absurd h1 (ft_fmt1_tag_ne _ _ (by decide))
    · exact absurd h2 (by rw [ftCoreName_tag]; decide)
  case hq3 =>
    intro sw c2 hsw
    simp only [decide_eq_false_iff_not]
    rintro (⟨_, h1⟩ | ⟨h2, _⟩)
    · exact absurd h1 (by rw [ftHostName_tag]; decide)
    · exact absurd h2 (ft_fmt1_tag_ne _ _ (by decide))
  omega

/-- C2: for every valid `(k, r)` (`k` positive and even, `r ≥ 1` dividing
`k/2`), `FatTreeTopo(k, r)` produces exactly `(k/2)^2/r` core switches,
`k*(k/2)` aggregation switches, `k*(k/2)` edge switches and `k^3/4` hosts;
every edge switch has degree exactly `k` (`k/2` links to hosts and `k/2`
links to aggregation switches), and every aggregation switch has exactly
`k/2` links to edge switches. -/
theorem claim_C2_fattree_counts_and_degrees (k r : Nat) (hk : 2 ≤ k)
    (hke : k % 2 = 0) (hr : 1 ≤ r) (hdvd : r ∣ k / 2) :
    fatTreeTopo (PyVal.int k) (PyVal.int r) = (fatTreeGraphN k r, none) ∧
    (fatTreeGraphN k r).switchTagCount "c" = (k / 2) ^ 2 / r ∧
    (fatTreeGraphN k r).switchTagCount "a" = k * (k / 2) ∧
    (fatTreeGraphN k r).switchTagCount "e" = k * (k / 2) ∧
    (fatTreeGraphN k r).kindCount NodeKind.host = k ^ 3 / 4 ∧
    (∀ x ∈ (fatTreeGraphN k r).nodes, x.2 = NodeKind.switch → x.1.tag = "e" →
      (fatTreeGraphN k r).degree x.1 = k ∧
      (fatTreeGraphN k r).tagDegree x.1 "h" = k / 2 ∧
      (fatTreeGraphN k r).tagDegree x.1 "a" = k / 2) ∧
    (∀ x ∈ (fatTreeGraphN k r).nodes, x.2 = NodeKind.switch → x.1.tag = "a" →
      (fatTreeGraphN k r).tagDegree x.1 "e" = k / 2) := by
  have hk2 : k / 2 + k / 2 = k := by omega
  refine ⟨fatTree_topo_ok k r hk hke hr hdvd, fatTree_tagCount_c k r,
    fatTree_tagCount_a k r, fatTree_tagCount_e k r, ?_, ?_, ?_⟩
  · rw [fatTree_host_count]
    obtain ⟨h2, rfl⟩ : ∃ h2, k = 2 * h2 := ⟨k / 2, by omega⟩
    rw [show 2 * h2 / 2 = h2 from by omega]
    rw [show (2 * h2) ^ 3 = 2 * h2 * h2 * h2 * 4 from by ring]
    rw [Nat.mul_div_cancel _ (by omega : 0 < 4)]
  · intro x hx hsw htag
    rcases fatTree_nodes_mem k r x hx with ⟨c2, hc2, rfl⟩ |
      ⟨p, hp, t, ht, rfl⟩ | ⟨p, hp, u, hu, rfl⟩ | ⟨c2, rfl⟩
    · exact absurd htag (by rw [ftCoreName_tag]; decide)
    · exact absurd htag (by rw [ftAggrName_tag]; decide)
    · exact ⟨(ft_edge_degrees k r hk2 p u hp hu).1,
        (ft_edge_degrees k r hk2 p u hp hu).2.2,
        (ft_edge_degrees k r hk2 p u hp hu).2.1⟩
    · simp at hsw
  · intro x hx hsw htag
    rcases fatTree_nodes_mem k r x hx with ⟨c2, hc2, rfl⟩ |
      ⟨p, hp, t, ht, rfl⟩ | ⟨p, hp, u, hu, rfl⟩ | ⟨c2, rfl⟩
    · exact absurd htag (by rw [ftCoreName_tag]; decide)
    · exact ft_aggr_edge_degree k r hk2 p t hp ht
    · exact absurd htag (by rw [ftEdgeName_tag]; decide)
    · simp at hsw

theorem claim_C2_fattree_counts_and_degrees_witness :
    fatTreeTopo (PyVal.int 4) (PyVal.int 2) = (fatTreeGraphN 4 2, none) ∧
    (fatTreeGraphN 4 2).switchTagCount "c" = (4 / 2) ^ 2 / 2 ∧
    (fatTreeGraphN 4 2).switchTagCount "a" = 4 * (4 / 2) ∧
    (fatTreeGraphN 4 2).switchTagCount "e" = 4 * (4 / 2) ∧
    (fatTreeGraphN 4 2).kindCount NodeKind.host = 4 ^ 3 / 4 ∧
    (∀ x ∈ (fatTreeGraphN 4 2).nodes, x.2 = NodeKind.switch → x.1.tag = "e" →
      (fatTreeGraphN 4 2).degree x.1 = 4 ∧
      (fatTreeGraphN 4 2).tagDegree x.1 "h" = 4 / 2 ∧
      (fatTreeGraphN 4 2).tagDegree x.1 "a" = 4 / 2) ∧
    (∀ x ∈ (fatTreeGraphN 4 2).nodes, x.2 = NodeKind.switch → x.1.tag = "a" →
      (fatTreeGraphN 4 2).tagDegree x.1 "e" = 4 / 2) :=
  claim_C2_fattree_counts_and_degrees 4 2 (by decide) (by decide) (by decide)
    (by decide)

/-- C7: `FatTree(k=4, r=1)` produces exactly 4 core switches, 8 aggregation
switches, 8 edge switches and 16 hosts, and each core switch is linked to
exactly 4 aggregation switches, one in each pod (pod `p` owns the
aggregation labels `5 + 4p, 6 + 4p`). -/
theorem claim_C7_fattree_4_1 :
    fatTreeTopo (PyVal.int 4) (PyVal.int 1) = (fatTreeGraphN 4 1, none) ∧
    (fatTreeGraphN 4 1).switchTagCount "c" = 4 ∧
    (fatTreeGraphN 4 1).switchTagCount "a" = 8 ∧
    (fatTreeGraphN 4 1).switchTagCount "e" = 8 ∧
    (fatTreeGraphN 4 1).kindCount NodeKind.host = 16 ∧
    (∀ i, i < 4 →
      ((fatTreeGraphN 4 1).links.filter (fun e =>
          e.1 = ftCoreName i ∨ e.2 = ftCoreName i)).map Prod.snd =
        [ftAggrName (5 + i / 2), ftAggrName (9 + i / 2),
          ftAggrName (13 + i / 2), ftAggrName (17 + i / 2)]) := by
  decide

/-- C4 counterexample: for `(k, r) = (4, 1)`, core index `c = 0` and pod
`p = 0`, the claimed position `(c div (k/2/r)) + k*p = 0` in the global
switch ordering holds the core switch `c1` itself (not an aggregation
switch), and no link joins `c1` to the switch at that position; the link
actually created goes to the switch at position `n_core + 0 = 4`, namely
`a5`. -/
theorem claim_C4_counterexample :
    fatTreeBuild 4 1 = .ok (fatTreeGraphN 4 1) ∧
    (ftSwitchNames 4 1)[0 / (4 / 2 / 1) + 4 * 0]? = some (ftCoreName 0) ∧
    Name.tag (ftCoreName 0) = "c" ∧
    ((fatTreeGraphN 4 1).links.contains (ftCoreName 0, ftCoreName 0)) = false ∧
    (ftSwitchNames 4 1)[4 + (0 / (4 / 2 / 1) + 4 * 0)]? = some (ftAggrName 5) ∧
    ((fatTreeGraphN 4 1).links.contains (ftCoreName 0, ftAggrName 5)) = true := by
  decide

/-- C4 amended: core switch `c` is linked, for each pod `p`, to the
aggregation switch at position `n_core + (c div (k/2/r)) + k*p` (0-based)
of the global switch ordering — the spec's formula is missing the `n_core`
offset of the first aggregation switch. -/
theorem claim_C4_core_wiring_amended (k r : Nat) (hk : 2 ≤ k)
    (hke : k % 2 = 0) (hr : 1 ≤ r) (hdvd : r ∣ k / 2) (c p : Nat)
    (hc : c < ftNCore k r) (hp : p < k) :
    fatTreeTopo (PyVal.int k) (PyVal.int r) = (fatTreeGraphN k r, none) ∧
    (ftSwitchNames k r)[ftNCore k r + c / (k / 2 / r) + k * p]? =
      some (ftAggrName (ftAggrLabel k r p (c / (k / 2 / r)))) ∧
    Name.tag (ftAggrName (ftAggrLabel k r p (c / (k / 2 / r)))) = "a" ∧
    (ftCoreName c, ftAggrName (ftAggrLabel k r p (c / (k / 2 / r)))) ∈
      (fatTreeGraphN k r).links := by
  have hk2 : k / 2 + k / 2 = k := by omega
  have hcd := ft_hcd_of_dvd k r hr hdvd (by omega)
  refine ⟨fatTree_topo_ok k r hk hke hr hdvd, ?_, ftAggrName_tag _, ?_⟩
  · rw [show ftNCore k r + c / (k / 2 / r) + k * p =
      ftNCore k r + (p * k + c / (k / 2 / r)) from by ring]
    exact ftSwitchNames_get_aggr k r hk2 p _ hp (hcd c hc)
  · apply List.mem_append.mpr
    left
    apply List.mem_append.mpr
    right
    rw [ftCoreLinks]
    exact mem_cm.mpr ⟨c, List.mem_range.mpr hc,
      List.mem_map.mpr ⟨p, List.mem_range.mpr hp, rfl⟩⟩

theorem claim_C4_core_wiring_amended_witness :
    fatTreeTopo (PyVal.int 4) (PyVal.int 1) = (fatTreeGraphN 4 1, none) ∧
    (ftSwitchNames 4 1)[ftNCore 4 1 + 3 / (4 / 2 / 1) + 4 * 2]? =
      some (ftAggrName (ftAggrLabel 4 1 2 (3 / (4 / 2 / 1)))) ∧
    Name.tag (ftAggrName (ftAggrLabel 4 1 2 (3 / (4 / 2 / 1)))) = "a" ∧
    (ftCoreName 3, ftAggrName (ftAggrLabel 4 1 2 (3 / (4 / 2 / 1)))) ∈
      (fatTreeGraphN 4 1).links :=
  claim_C4_core_wiring_amended 4 1 (by decide) (by decide) (by decide)
    (by decide) 3 2 (by decide) (by decide)

/-- C10: for every even integer `k ≥ 2`, `FatTree(k, 0)` raises
`ZeroDivisionError` (neither of the two documented error kinds), because
validation evaluates `k // 2 % r` before any range check on `r`; no node is
created before the error. -/
theorem claim_C10_fattree_r_zero (kz : Int) (hk2 : 2 ≤ kz)
    (heven : Int.fmod kz 2 = 0) :
    fatTreeTopo (PyVal.int kz) (PyVal.int 0) =
      (Graph.empty, some PyErr.zeroDivisionError) := by
  unfold fatTreeTopo
  have hval : fatTreeValidate (PyVal.int kz) (PyVal.int 0) =
      .error PyErr.zeroDivisionError := by
    show (if (0 : Int) = 0 then Except.error PyErr.zeroDivisionError
      else if (Int.fdiv kz 2).fmod 0 ≠ 0 then
        Except.error (PyErr.valueError "k/2 must be divided exactly by r")
      else if kz < 1 ∨ Int.fmod kz 2 = 1 then
        Except.error (PyErr.valueError "k must be a positive even integer")
      else Except.ok (kz, (0 : Int))) = _
    rw [if_pos rfl]
  rw [hval]

theorem claim_C10_fattree_r_zero_witness :
    fatTreeTopo (PyVal.int 4) (PyVal.int 0) =
      (Graph.empty, some PyErr.zeroDivisionError) :=
  claim_C10_fattree_r_zero 4 (by decide) (by decide)

/-- C8: with valid parameters neither generator ever hands a non-existent
node to `addLink` — both builders run to completion without
`UnknownNodeError` (or `IndexError`); in BCube every positional index
`m + j*arg1` is below the host count `n^(k+1)`, and in FatTree the computed
aggregation index lies in the aggregation band
`[n_core + k*p, n_core + k*p + k/2)` of pod `p`. -/
theorem claim_C8_no_unknown_node :
    (∀ k n : Nat, 1 ≤ n → bcubeBuild k n = .ok (bcubeGraphN k n)) ∧
    (∀ k n level i j : Nat, 1 ≤ n → level ≤ k → i < n ^ k → j < n →
      bcubeM n level i + j * n ^ level < n ^ (k + 1)) ∧
    (∀ k r : Nat, 2 ≤ k → k % 2 = 0 → 1 ≤ r → r ∣ k / 2 →
      fatTreeBuild k r = .ok (fatTreeGraphN k r)) ∧
    (∀ k r c p : Nat, 2 ≤ k → k % 2 = 0 → 1 ≤ r → r ∣ k / 2 →
      c < ftNCore k r → p < k →
      ftNCore k r + k * p ≤ ftNCore k r + c / (k / 2 / r) + k * p ∧
      ftNCore k r + c / (k / 2 / r) + k * p <
        ftNCore k r + k * p + k / 2) := by
  refine ⟨fun k n hn => bcubeBuild_ok k n hn,
    fun k n level i j hn hlev hi hj => bcube_index_lt k n level i j hn hlev hi hj,
    fun k r hk hke hr hdvd => fatTreeBuild_ok k r (by omega)
      (ft_hcd_of_dvd k r hr hdvd (by omega)), ?_⟩
  intro k r c p hk hke hr hdvd hc hp
  have hq := ft_hcd_of_dvd k r hr hdvd (by omega) c hc
  revert hq
  generalize c / (k / 2 / r) = q
  generalize k * p = m
  intro hq
  omega

theorem claim_C8_no_unknown_node_witness :
    bcubeBuild 1 2 = .ok (bcubeGraphN 1 2) ∧
    bcubeM 2 1 1 + 1 * 2 ^ 1 < 2 ^ (1 + 1) ∧
    fatTreeBuild 4 2 = .ok (fatTreeGraphN 4 2) ∧
    (ftNCore 4 2 + 4 * 1 ≤ ftNCore 4 2 + 1 / (4 / 2 / 2) + 4 * 1 ∧
      ftNCore 4 2 + 1 / (4 / 2 / 2) + 4 * 1 < ftNCore 4 2 + 4 * 1 + 4 / 2) :=
  ⟨claim_C8_no_unknown_node.1 1 2 (by decide),
    claim_C8_no_unknown_node.2.1 1 2 1 1 1 (by decide) (by decide) (by decide)
      (by decide),
    claim_C8_no_unknown_node.2.2.1 4 2 (by decide) (by decide) (by decide)
      (by decide),
    claim_C8_no_unknown_node.2.2.2 4 2 1 1 (by decide) (by decide) (by decide)
      (by decide) (by decide) (by decide)⟩

/-- C9: both generators are deterministic — two invocations with the same
parameters yield identical node identifier sequences, node counts, link
sequences and outcome. -/
theorem claim_C9_determinism :
    (∀ kv nv : PyVal, ∀ g1 g2 : Graph × Option PyErr,
      bcubeTopo kv nv = g1 → bcubeTopo kv nv = g2 →
      g1.1.nodeNames = g2.1.nodeNames ∧
      g1.1.nodes.length = g2.1.nodes.length ∧
      g1.1.links = g2.1.links ∧ g1.2 = g2.2) ∧
    (∀ kv rv : PyVal, ∀ g1 g2 : Graph × Option PyErr,
      fatTreeTopo kv rv = g1 → fatTreeTopo kv rv = g2 →
      g1.1.nodeNames = g2.1.nodeNames ∧
      g1.1.nodes.length = g2.1.nodes.length ∧
      g1.1.links = g2.1.links ∧ g1.2 = g2.2) := by
  constructor
  · intro kv nv g1 g2 h1 h2
    rw [← h1, ← h2]
    exact ⟨rfl, rfl, rfl, rfl⟩
  · intro kv rv g1 g2 h1 h2
    rw [← h1, ← h2]
    exact ⟨rfl, rfl, rfl, rfl⟩

theorem claim_C9_determinism_witness :
    ((bcubeGraphN 1 2, (none : Option PyErr)).1.nodeNames =
        (bcubeGraphN 1 2, (none : Option PyErr)).1.nodeNames ∧
      (bcubeGraphN 1 2, (none : Option PyErr)).1.nodes.length =
        (bcubeGraphN 1 2, (none : Option PyErr)).1.nodes.length ∧
      (bcubeGraphN 1 2, (none : Option PyErr)).1.links =
        (bcubeGraphN 1 2, (none : Option PyErr)).1.links ∧
      (bcubeGraphN 1 2, (none : Option PyErr)).2 =
        (bcubeGraphN 1 2, (none : Option PyErr)).2) ∧
    ((fatTreeGraphN 4 1, (none : Option PyErr)).1.nodeNames =
        (fatTreeGraphN 4 1, (none : Option PyErr)).1.nodeNames ∧
      (fatTreeGraphN 4 1, (none : Option PyErr)).1.nodes.length =
        (fatTreeGraphN 4 1, (none : Option PyErr)).1.nodes.length ∧
      (fatTreeGraphN 4 1, (none : Option PyErr)).1.links =
        (fatTreeGraphN 4 1, (none : Option PyErr)).1.links ∧
      (fatTreeGraphN 4 1, (none : Option PyErr)).2 =
        (fatTreeGraphN 4 1, (none : Option PyErr)).2) :=
  ⟨claim_C9_determinism.1 (PyVal.int 1) (PyVal.int 2) _ _ (by decide) (by decide),
    claim_C9_determinism.2 (PyVal.int 4) (PyVal.int 1) _ _ (by decide) (by decide)⟩

/-- C5 counterexample: `FatTree(4, 0)` raises `ZeroDivisionError`, which is
neither a `TypeError` nor a `ValueError`, refuting the claim that those are
the only two error kinds the constructor can raise. -/
theorem claim_C5_counterexample :
    (fatTreeTopo (PyVal.int 4) (PyVal.int 0)).2 =
      some PyErr.zeroDivisionError ∧
    PyErr.zeroDivisionError.isTypeError = false ∧
    PyErr.zeroDivisionError.isValueError = false := by
  decide

/-- C5 amended: `FatTreeTopo(k, r)` raises `TypeError` for a non-integer
`k`, then `TypeError` for a non-integer `r`; for integer arguments it
raises `ZeroDivisionError` when `r = 0` (the validation `k // 2 % r` runs
before any range check on `r`), `ValueError` when `k//2 % r ≠ 0`,
`ValueError` when `k` is not a positive even integer, and succeeds in every
remaining case; every error is raised before any node is created, leaving
the graph empty. -/
theorem claim_C5_fattree_validation_amended (kv rv : PyVal) :
    (kv.isInt = false →
      fatTreeTopo kv rv = (Graph.empty,
        some (PyErr.typeError "k argument must be of int type"))) ∧
    (kv.isInt = true → rv.isInt = false →
      fatTreeTopo kv rv = (Graph.empty,
        some (PyErr.typeError "r argument must be of int type"))) ∧
    (∀ kz : Int, kv = PyVal.int kz → rv = PyVal.int 0 →
      fatTreeTopo kv rv = (Graph.empty, some PyErr.zeroDivisionError)) ∧
    (∀ kz rz : Int, kv = PyVal.int kz → rv = PyVal.int rz → rz ≠ 0 →
      (Int.fdiv kz 2).fmod rz ≠ 0 →
      fatTreeTopo kv rv = (Graph.empty,
        some (PyErr.valueError "k/2 must be divided exactly by r"))) ∧
    (∀ kz rz : Int, kv = PyVal.int kz → rv = PyVal.int rz → rz ≠ 0 →
      (Int.fdiv kz 2).fmod rz = 0 → (kz < 1 ∨ Int.fmod kz 2 = 1) →
      fatTreeTopo kv rv = (Graph.empty,
        some (PyErr.valueError "k must be a positive even integer"))) ∧
    (∀ kz rz : Int, kv = PyVal.int kz → rv = PyVal.int rz → rz ≠ 0 →
      (Int.fdiv kz 2).fmod rz = 0 → 1 ≤ kz → Int.fmod kz 2 ≠ 1 →
      fatTreeTopo kv rv = (fatTreeGraphN kz.toNat rz.toNat, none)) := by
  refine ⟨?_, ?_, ?_, ?_, ?_, ?_⟩
  · intro h
    rcases kv with kz | t
    · simp [PyVal.isInt] at h
    · rcases rv with rz | t2 <;> rfl
  · intro hk hr
    rcases kv with kz | t
    · rcases rv with rz | t2
      · simp [PyVal.isInt] at hr
      · rfl
    · simp [PyVal.isInt] at hk
  · intro kz hkv hrv
    subst hkv
    subst hrv
    unfold fatTreeTopo
    have hval : fatTreeValidate (PyVal.int kz) (PyVal.int 0) =
        .error PyErr.zeroDivisionError := by
      show (if (0 : Int) = 0 then Except.error PyErr.zeroDivisionError
        else if (Int.fdiv kz 2).fmod 0 ≠ 0 then
          Except.error (PyErr.valueError "k/2 must be divided exactly by r")
        else if kz < 1 ∨ Int.fmod kz 2 = 1 then
          Except.error (PyErr.valueError "k must be a positive even integer")
        else Except.ok (kz, (0 : Int))) = _
      rw [if_pos rfl]
    rw [hval]
  · intro kz rz hkv hrv hr0 hmod
    subst hkv
    subst hrv
    unfold fatTreeTopo
    have hval : fatTreeValidate (PyVal.int kz) (PyVal.int rz) =
        .error (PyErr.valueError "k/2 must be divided exactly by r") := by
      show (if rz = 0 then Except.error PyErr.zeroDivisionError
        else if (Int.fdiv kz 2).fmod rz ≠ 0 then
          Except.error (PyErr.valueError "k/2 must be divided exactly by r")
        else if kz < 1 ∨ Int.fmod kz 2 = 1 then
          Except.error (PyErr.valueError "k must be a positive even integer")
        else Except.ok (kz, rz)) = _
      rw [if_neg hr0, if_pos hmod]
    rw [hval]
  · intro kz rz hkv hrv hr0 hmod hbad
    subst hkv
    subst hrv
    unfold fatTreeTopo
    have hval : fatTreeValidate (PyVal.int kz) (PyVal.int rz) =
        .error (PyErr.valueError "k must be a positive even integer") := by
      show (if rz = 0 then Except.error PyErr.zeroDivisionError
        else if (Int.fdiv kz 2).fmod rz ≠ 0 then
          Except.error (PyErr.valueError "k/2 must be divided exactly by r")
        else if kz < 1 ∨ Int.fmod kz 2 = 1 then
          Except.error (PyErr.valueError "k must be a positive even integer")
        else Except.ok (kz, rz)) = _
      rw [if_neg hr0, if_neg (by simpa using hmod), if_pos hbad]
    rw [hval]
  · intro kz rz hkv hrv hr0 hmod hk1 hkodd
    subst hkv
    subst hrv
    unfold fatTreeTopo
    have hval : fatTreeValidate (PyVal.int kz) (PyVal.int rz) =
        .ok (kz, rz) := by
      show (if rz = 0 then Except.error PyErr.zeroDivisionError
        else if (Int.fdiv kz 2).fmod rz ≠ 0 then
          Except.error (PyErr.valueError "k/2 must be divided exactly by r")
        else if kz < 1 ∨ Int.fmod kz 2 = 1 then
          Except.error (PyErr.valueError "k must be a positive even integer")
        else Except.ok (kz, rz)) = _
      rw [if_neg hr0, if_neg (by simpa using hmod),
        if_neg (by push_neg; exact ⟨by omega, hkodd⟩)]
    rw [hval]
    -- the build succeeds for every validated pair
    obtain ⟨k, rfl⟩ : ∃ k : Nat, kz = (k : Int) := ⟨kz.toNat, by omega⟩
    have hktn : ((k : Int)).toNat = k := Int.toNat_natCast k
    have hkmod : Int.fmod (k : Int) 2 = ((k % 2 : Nat) : Int) := by
      rw [Int.fmod_eq_emod _ (by omega)]
      push_cast
      rfl
    have hke : k % 2 = 0 := by
      rw [hkmod] at hkodd
      have h01 : k % 2 = 0 ∨ k % 2 = 1 := by omega
      rcases h01 with h | h
      · exact h
      · rw [h] at hkodd
        simp at hkodd
    have hk2 : 2 ≤ k := by omega
    show (match fatTreeBuild ((k : Int)).toNat rz.toNat with
      | .ok g => (g, none)
      | .error e => (Graph.empty, some e)) = _
    rw [hktn]
    rcases lt_trichotomy rz 0 with hneg | hzero | hpos
    · have hrtn : rz.toNat = 0 := by omega
      rw [hrtn]
      rw [fatTreeBuild_ok k 0 (by omega) (fun c hc => by
        rw [ftNCore, Nat.div_zero] at hc
        omega)]
    · exact absurd hzero hr0
    · obtain ⟨r, rfl⟩ : ∃ r : Nat, rz = (r : Int) := ⟨rz.toNat, by omega⟩
      rw [Int.toNat_natCast]
      have hr1 : 1 ≤ r := by omega
      have hdvd : r ∣ k / 2 := by
        apply Nat.dvd_of_mod_eq_zero
        have hcast : (Int.fdiv (k : Int) 2).fmod (r : Int) =
            ((k / 2 % r : Nat) : Int) := by
          rw [Int.fdiv_eq_ediv _ (by omega), Int.fmod_eq_emod _ (by omega)]
          push_cast
          rfl
        rw [hcast] at hmod
        omega
      rw [fatTreeBuild_ok k r (by omega)
        (ft_hcd_of_dvd k r hr1 hdvd (by omega))]

theorem claim_C5_fattree_validation_amended_witness :
    fatTreeTopo (PyVal.notInt "str") (PyVal.int 1) = (Graph.empty,
      some (PyErr.typeError "k argument must be of int type")) ∧
    fatTreeTopo (PyVal.int 4) (PyVal.notInt "str") = (Graph.empty,
      some (PyErr.typeError "r argument must be of int type")) ∧
    fatTreeTopo (PyVal.int 4) (PyVal.int 0) =
      (Graph.empty, some PyErr.zeroDivisionError) ∧
    fatTreeTopo (PyVal.int 4) (PyVal.int 3) = (Graph.empty,
      some (PyErr.valueError "k/2 must be divided exactly by r")) ∧
    fatTreeTopo (PyVal.int 3) (PyVal.int 1) = (Graph.empty,
      some (PyErr.valueError "k must be a positive even integer")) ∧
    fatTreeTopo (PyVal.int 4) (PyVal.int 1) =
      (fatTreeGraphN ((4 : Int)).toNat ((1 : Int)).toNat, none) :=
  ⟨(claim_C5_fattree_validation_amended (PyVal.notInt "str") (PyVal.int 1)).1
      (by decide),
    (claim_C5_fattree_validation_amended (PyVal.int 4)
      (PyVal.notInt "str")).2.1 (by decide) (by decide),
    (claim_C5_fattree_validation_amended (PyVal.int 4) (PyVal.int 0)).2.2.1
      4 rfl rfl,
    (claim_C5_fattree_validation_amended (PyVal.int 4) (PyVal.int 3)).2.2.2.1
      4 3 rfl rfl (by decide) (by decide),
    (claim_C5_fattree_validation_amended (PyVal.int 3)
      (PyVal.int 1)).2.2.2.2.1 3 1 rfl rfl (by decide) (by decide)
      (by decide),
    (claim_C5_fattree_validation_amended (PyVal.int 4)
      (PyVal.int 1)).2.2.2.2.2 4 1 rfl rfl (by decide) (by decide)
      (by decide) (by decide)⟩
